import Mathlib

/-!
Verification of the synchronization and reconciliation engine of the
school-comms-aggregator repository, against its natural-language spec.

The Python services are shallowly embedded as pure Lean functions:
SQLAlchemy sessions become explicit state values (with the transaction
semantics made explicit where a claim is about rollback), `datetime`
values become `Nat` instants, and external collaborators (the LLM, the
JSON decoder of the standard library, `difflib.SequenceMatcher`) are
either implemented directly or taken as function parameters, as noted
at each definition.
-/

namespace SchoolComms

/-! ## Checklist model — src/src/services/checklist_service.py

A `ChecklistItem` row (src/src/models/communication.py, class
`ChecklistItem`).  All items handled by one call of
`sync_items_from_summary` share one `category`, so the category column
is not repeated on the record; `datetime` columns are modeled as `Nat`
instants, `event_date` as an optional day number.  A checklist state is
a `List CLItem` in primary-key (rowid) order, which is the order the
service's unordered `filter_by(category=...).all()` query returns.
-/

structure CLItem where
  id : Nat
  item_text : String
  is_checked : Bool
  checked_at : Option Nat
  event_date : Option Nat
  created_at : Nat
  deriving DecidableEq

/-! ### The similarity collaborator: `difflib.SequenceMatcher.ratio()`

`sync_items_from_summary` measures similarity with
`difflib.SequenceMatcher(None, a, b).ratio()` (checklist_service.py
lines 126-128).  The following is a direct implementation of CPython's
`difflib` for that configuration: no junk predicate, and autojunk
inoperative (autojunk only fires when the second sequence has at least
200 elements; checklist strings are far shorter, and on shorter inputs
the b2j table below is exactly difflib's).  `ratio` is
`2*M / (len(a)+len(b))` where `M` sums the sizes of the matching
blocks found by recursively applying `find_longest_match`. -/

/-- `b2j[c]`: the positions of character `c` in `b`, increasing. -/
def b2j (b : List Char) (c : Char) : List Nat :=
  (b.enum.filter (fun p => p.2 = c)).map (fun p => p.1)

/-- `j2len.get(j, 0)` on the association list representing difflib's
`j2len` dict. -/
def lookupD (m : List (Nat × Nat)) (j : Nat) : Nat :=
  match m.find? (fun p => p.1 = j) with
  | some p => p.2
  | none => 0

/-- Inner loop of `find_longest_match`: walk the occurrence list of
`a[i]` within `[blo, bhi)`, extending diagonal run lengths
(`k = j2len.get(j-1, 0) + 1`, where `j = 0` looks up key `-1`, absent)
and tracking the best block `(i-k+1, j-k+1, k)`. -/
def flmInner (i : Nat) (j2len : List (Nat × Nat)) :
    List Nat → (Nat × Nat × Nat) → List (Nat × Nat) →
    ((Nat × Nat × Nat) × List (Nat × Nat))
  | [], best, newj2len => (best, newj2len)
  | j :: rest, best, newj2len =>
    let k := (if j = 0 then 0 else lookupD j2len (j - 1)) + 1
    let best' := if k > best.2.2 then (i + 1 - k, j + 1 - k, k) else best
    flmInner i j2len rest best' ((j, k) :: newj2len)

/-- Outer loop of `find_longest_match` over `i in range(alo, ahi)`. -/
def flmOuter (a b : List Char) (blo bhi : Nat) :
    List Nat → (Nat × Nat × Nat) → List (Nat × Nat) → (Nat × Nat × Nat)
  | [], best, _ => best
  | i :: is, best, j2len =>
    let js := (b2j b (a.getD i ' ')).filter (fun j => blo ≤ j ∧ j < bhi)
    let (best', newj2len) := flmInner i j2len js best []
    flmOuter a b blo bhi is best' newj2len

/-- difflib's post-pass extending the best block leftward over equal
(non-junk; there is no junk here) characters.  The explicit `fuel`
argument makes the while-loop structurally recursive; it is called
with `fuel = bi`, which the loop guard `alo < bi` can never exhaust. -/
def extendLeft (a b : List Char) (alo blo : Nat) :
    Nat → Nat → Nat → Nat → (Nat × Nat × Nat)
  | 0, bi, bj, bs => (bi, bj, bs)
  | fuel + 1, bi, bj, bs =>
    if alo < bi ∧ blo < bj ∧ a.getD (bi - 1) ' ' = b.getD (bj - 1) '!' then
      extendLeft a b alo blo fuel (bi - 1) (bj - 1) (bs + 1)
    else (bi, bj, bs)

/-- difflib's post-pass extending the best block rightward; `fuel = ahi`
bounds the loop. -/
def extendRight (a b : List Char) (ahi bhi : Nat) :
    Nat → Nat → Nat → Nat → (Nat × Nat × Nat)
  | 0, bi, bj, bs => (bi, bj, bs)
  | fuel + 1, bi, bj, bs =>
    if bi + bs < ahi ∧ bj + bs < bhi ∧ a.getD (bi + bs) ' ' = b.getD (bj + bs) '!' then
      extendRight a b ahi bhi fuel bi bj (bs + 1)
    else (bi, bj, bs)

/-- `SequenceMatcher.find_longest_match(alo, ahi, blo, bhi)` with no
junk: the dynamic program plus the two extension passes. -/
def findLongestMatch (a b : List Char) (alo ahi blo bhi : Nat) : Nat × Nat × Nat :=
  let best := flmOuter a b blo bhi (List.range' alo (ahi - alo)) (alo, blo, 0) []
  let best := extendLeft a b alo blo best.1 best.1 best.2.1 best.2.2
  extendRight a b ahi bhi ahi best.1 best.2.1 best.2.2

/-- Total size of all matching blocks (the recursion of
`get_matching_blocks`, summing block sizes).  Recursion depth is
bounded by the total window size, so the explicit `fuel` (called with
`len(a)+len(b)+1`) is never exhausted. -/
def matchTotal (a b : List Char) : Nat → Nat → Nat → Nat → Nat → Nat
  | 0, _, _, _, _ => 0
  | fuel + 1, alo, ahi, blo, bhi =>
    let (i, j, k) := findLongestMatch a b alo ahi blo bhi
    if k = 0 then 0
    else k + matchTotal a b fuel alo i blo j + matchTotal a b fuel (i + k) ahi (j + k) bhi

/-- `SequenceMatcher(None, x, y).ratio()`: `2*M / (len(x)+len(y))`
(`1.0` when both are empty), as an exact rational. -/
def difflibRatio (x y : String) : ℚ :=
  let a := x.data
  let b := y.data
  let la := a.length
  let lb := b.length
  if la + lb = 0 then 1
  else mkRat (2 * (matchTotal a b (la + lb + 1) 0 la 0 lb)) (la + lb)

/-- Python's `str.lower()` (applied at checklist_service.py line 127
to both sides of every comparison), character by character.  Lean's
`Char.toLower` lowercases exactly the ASCII range, which agrees with
Python on the ASCII strings involved here. -/
def strLower (s : String) : String := ⟨s.data.map Char.toLower⟩

/-- `MATCH_THRESHOLD = 0.75` (checklist_service.py line 12), written
with `mkRat` so that concrete instances reduce in the kernel. -/
def matchThreshold : ℚ := mkRat 3 4

/-- The similarity ratio computed at checklist_service.py lines
126-128: existing item text against new text, both lowercased.  `sim`
is the similarity collaborator,
`difflib.SequenceMatcher(None, a, b).ratio()`. -/
def simR (sim : String → String → ℚ) (t : String) (item : CLItem) : ℚ :=
  sim (strLower item.item_text) (strLower t)

/-- One step of the inner loop of `sync_items_from_summary` (lines
123-131): fold over the existing items, skipping already-matched ones,
keeping the first item of maximal ratio that meets the threshold
(`ratio > best_ratio and ratio >= MATCH_THRESHOLD`).  The accumulator
is `(best_match_id, best_ratio)`, initially `(None, 0.0)`. -/
def bmStep (sim : String → String → ℚ) (t : String) (matched : List Nat)
    (acc : Option Nat × ℚ) (item : CLItem) : Option Nat × ℚ :=
  if item.id ∈ matched then acc
  else if acc.2 < simR sim t item ∧ matchThreshold ≤ simR sim t item then
    (some item.id, simR sim t item)
  else acc

/-- The best fuzzy match for one new text against the not-yet-matched
existing items (lines 120-131). -/
def bestMatch (sim : String → String → ℚ) (existing : List CLItem)
    (matched : List Nat) (t : String) : Option Nat :=
  (existing.foldl (bmStep sim t matched) (none, 0)).1

/-- The outer matching loop of `sync_items_from_summary` (lines
119-137): new texts are processed in input order, each grabbing its
best available match; a successful match is added to
`matched_existing_ids`.  Returns, per new-text index, the id of the
matched existing item (or `none`). -/
def computeMatchesAux (sim : String → String → ℚ) (existing : List CLItem) :
    List String → List Nat → List (Option Nat)
  | [], _ => []
  | t :: ts, matched =>
    match bestMatch sim existing matched t with
    | some i => some i :: computeMatchesAux sim existing ts (i :: matched)
    | none => none :: computeMatchesAux sim existing ts matched

def computeMatches (sim : String → String → ℚ) (existing : List CLItem)
    (texts : List String) : List (Option Nat) :=
  computeMatchesAux sim existing texts []

/-- The text assigned to existing item `i` by the matching loop, if any
(line 137: `existing_map[best_match_id].item_text = new_text`). -/
def assignedText (texts : List String) (asgn : List (Option Nat)) (i : Nat) :
    Option String :=
  match (texts.zip asgn).find? (fun p => p.2 = some i) with
  | some p => some p.1
  | none => none

/-- In-place text update of a matched existing item (line 137); checked
state and every other column are untouched. -/
def applyText (texts : List String) (asgn : List (Option Nat)) (item : CLItem) :
    CLItem :=
  match assignedText texts asgn item.id with
  | some t => { item with item_text := t }
  | none => item

/-- The brand-new unchecked items created for unmatched new texts
(lines 140-148), in input order; the autoincrement primary key hands
out consecutive ids starting at `nid`, and `created_at` is the current
instant.  `event_date` stays at its column default (NULL). -/
def newItems : List (String × Option Nat) → Nat → Nat → List CLItem
  | [], _, _ => []
  | (t, none) :: rest, nid, now =>
    ⟨nid, t, false, none, none, now⟩ :: newItems rest (nid + 1) now
  | (_, some _) :: rest, nid, now => newItems rest nid now

/-- The deletion filter (lines 150-154): an existing item survives iff
it was matched or it is checked. -/
def keepItem (asgn : List (Option Nat)) (item : CLItem) : Bool :=
  asgn.contains (some item.id) || item.is_checked

/-- `ChecklistService.sync_items_from_summary(category, new_texts)`
(lines 99-166) as a function from the category's current checklist
state to the state after the transaction commits: matched existing
items get their text overwritten, unmatched new texts become fresh
unchecked rows (appended, since their rowids are larger), and
unmatched unchecked existing items are deleted.  `nid` is the next
autoincrement id, `now` the current instant. -/
def sync_items_from_summary (sim : String → String → ℚ) (existing : List CLItem)
    (texts : List String) (nid now : Nat) : List CLItem :=
  let asgn := computeMatches sim existing texts
  ((existing.map (applyText texts asgn)).filter (keepItem asgn))
    ++ newItems (texts.zip asgn) nid now

/-! ### Behaviour of the greedy best-match fold -/

theorem bmStep_matched (sim : String → String → ℚ) (t : String) (matched : List Nat)
    (acc : Option Nat × ℚ) (x : CLItem) (hm : x.id ∈ matched) :
    bmStep sim t matched acc x = acc := by
  unfold bmStep; simp [hm]

theorem bmStep_update (sim : String → String → ℚ) (t : String) (matched : List Nat)
    (acc : Option Nat × ℚ) (x : CLItem) (hm : x.id ∉ matched)
    (hlt : acc.2 < simR sim t x) (hthr : matchThreshold ≤ simR sim t x) :
    bmStep sim t matched acc x = (some x.id, simR sim t x) := by
  unfold bmStep; simp [hm, hlt, hthr]

theorem bmStep_keep (sim : String → String → ℚ) (t : String) (matched : List Nat)
    (acc : Option Nat × ℚ) (x : CLItem)
    (hc : ¬ (acc.2 < simR sim t x ∧ matchThreshold ≤ simR sim t x)) :
    bmStep sim t matched acc x = acc := by
  unfold bmStep
  by_cases hm : x.id ∈ matched <;> simp [hm, hc]

/-- Invariant of the `bmStep` fold: the accumulator is either still the
initial `(None, 0.0)` or records an available item of `S` together with
its ratio, which met the threshold. -/
def AccInv (sim : String → String → ℚ) (t : String) (matched : List Nat)
    (S : List CLItem) (acc : Option Nat × ℚ) : Prop :=
  acc = (none, 0) ∨
    ∃ item ∈ S, item.id ∉ matched ∧ acc = (some item.id, simR sim t item) ∧
      matchThreshold ≤ simR sim t item

theorem accInv_step (sim : String → String → ℚ) (t : String) (matched : List Nat)
    (S : List CLItem) (acc : Option Nat × ℚ) (x : CLItem) (hx : x ∈ S)
    (hacc : AccInv sim t matched S acc) :
    AccInv sim t matched S (bmStep sim t matched acc x) := by
  by_cases hm : x.id ∈ matched
  · rw [bmStep_matched sim t matched acc x hm]; exact hacc
  · by_cases hc : acc.2 < simR sim t x ∧ matchThreshold ≤ simR sim t x
    · rw [bmStep_update sim t matched acc x hm hc.1 hc.2]
      exact Or.inr ⟨x, hx, hm, rfl, hc.2⟩
    · rw [bmStep_keep sim t matched acc x hc]; exact hacc

theorem accInv_foldl (sim : String → String → ℚ) (t : String) (matched : List Nat)
    (S : List CLItem) :
    ∀ (l : List CLItem), (∀ x ∈ l, x ∈ S) → ∀ acc, AccInv sim t matched S acc →
      AccInv sim t matched S (l.foldl (bmStep sim t matched) acc)
  | [], _, acc, hacc => hacc
  | x :: l, hl, acc, hacc =>
    accInv_foldl sim t matched S l (fun y hy => hl y (List.mem_cons_of_mem x hy)) _
      (accInv_step sim t matched S acc x (hl x (List.mem_cons_self x l)) hacc)

theorem bmStep_someStable (sim : String → String → ℚ) (t : String)
    (matched : List Nat) (acc : Option Nat × ℚ) (x : CLItem)
    (hacc : acc.1.isSome) : ((bmStep sim t matched acc x).1).isSome := by
  by_cases hm : x.id ∈ matched
  · rw [bmStep_matched sim t matched acc x hm]; exact hacc
  · by_cases hc : acc.2 < simR sim t x ∧ matchThreshold ≤ simR sim t x
    · rw [bmStep_update sim t matched acc x hm hc.1 hc.2]; rfl
    · rw [bmStep_keep sim t matched acc x hc]; exact hacc

theorem bm_some_stable (sim : String → String → ℚ) (t : String) (matched : List Nat) :
    ∀ (l : List CLItem) (acc : Option Nat × ℚ), acc.1.isSome →
      ((l.foldl (bmStep sim t matched) acc).1).isSome
  | [], _, hacc => hacc
  | x :: l, acc, hacc =>
    bm_some_stable sim t matched l _ (bmStep_someStable sim t matched acc x hacc)

/-- Once the running best ratio reaches `1`, nothing can strictly beat
it (all ratios are at most `1`), so the fold no longer moves. -/
theorem bm_one_stable (sim : String → String → ℚ) (t : String) (matched : List Nat)
    (hle : ∀ item : CLItem, simR sim t item ≤ 1) :
    ∀ (l : List CLItem) (acc : Option Nat × ℚ), acc.2 = 1 →
      l.foldl (bmStep sim t matched) acc = acc
  | [], _, _ => rfl
  | x :: l, acc, hacc => by
    have hstep : bmStep sim t matched acc x = acc := by
      refine bmStep_keep sim t matched acc x ?_
      rintro ⟨hlt, -⟩
      rw [hacc] at hlt
      exact absurd (lt_of_lt_of_le hlt (hle x)) (lt_irrefl 1)
    rw [List.foldl_cons, hstep]
    exact bm_one_stable sim t matched hle l acc hacc

/-- If every available item of `l` has ratio `< 1`, the running best
ratio stays `< 1`. -/
theorem bm_lt_one (sim : String → String → ℚ) (t : String) (matched : List Nat) :
    ∀ (l : List CLItem), (∀ z ∈ l, z.id ∉ matched → simR sim t z < 1) →
      ∀ acc : Option Nat × ℚ, acc.2 < 1 →
        (l.foldl (bmStep sim t matched) acc).2 < 1
  | [], _, _, hacc => hacc
  | x :: l, hl, acc, hacc => by
    have hl' : ∀ z ∈ l, z.id ∉ matched → simR sim t z < 1 :=
      fun z hz => hl z (List.mem_cons_of_mem x hz)
    refine bm_lt_one sim t matched l hl' _ ?_
    by_cases hm : x.id ∈ matched
    · rw [bmStep_matched sim t matched acc x hm]; exact hacc
    · by_cases hc : acc.2 < simR sim t x ∧ matchThreshold ≤ simR sim t x
      · rw [bmStep_update sim t matched acc x hm hc.1 hc.2]
        exact hl x (List.mem_cons_self x l) hm
      · rw [bmStep_keep sim t matched acc x hc]; exact hacc

/-- A successful `bestMatch` names an available existing item whose
ratio met the threshold. -/
theorem bestMatch_mem (sim : String → String → ℚ) (existing : List CLItem)
    (matched : List Nat) (t : String) (i : Nat)
    (h : bestMatch sim existing matched t = some i) :
    ∃ item ∈ existing, item.id = i ∧ i ∉ matched ∧
      matchThreshold ≤ simR sim t item := by
  have hinv := accInv_foldl sim t matched existing existing (fun x hx => hx)
    (none, 0) (Or.inl rfl)
  unfold bestMatch at h
  rcases hinv with h0 | ⟨item, hmem, hav, hacc, hthr⟩
  · rw [h0] at h; exact absurd h (by simp)
  · rw [hacc] at h
    simp only [Option.some.injEq] at h
    exact ⟨item, hmem, h, h ▸ hav, hthr⟩

/-- If some available item meets the threshold, `bestMatch` succeeds
(`best_ratio` starts at `0.0 < 0.75`). -/
theorem bestMatch_isSome (sim : String → String → ℚ) (existing : List CLItem)
    (matched : List Nat) (t : String) (x : CLItem) (hx : x ∈ existing)
    (hav : x.id ∉ matched) (hthr : matchThreshold ≤ simR sim t x) :
    (bestMatch sim existing matched t).isSome := by
  obtain ⟨l1, l2, rfl⟩ := List.append_of_mem hx
  unfold bestMatch
  rw [List.foldl_append, List.foldl_cons]
  set acc1 := List.foldl (bmStep sim t matched) (none, 0) l1 with hacc1
  rcases accInv_foldl sim t matched l1 l1 (fun y hy => hy) (none, 0) (Or.inl rfl)
      with h0 | ⟨item, -, -, hacc, -⟩
  · have hpos : (0 : ℚ) < simR sim t x :=
      lt_of_lt_of_le (by decide : (0 : ℚ) < matchThreshold) hthr
    have hstep : bmStep sim t matched acc1 x = (some x.id, simR sim t x) := by
      refine bmStep_update sim t matched acc1 x hav ?_ hthr
      rw [← hacc1] at h0
      rw [h0]; exact hpos
    rw [hstep]
    exact bm_some_stable sim t matched l2 _ (by simp)
  · rw [← hacc1] at hacc
    refine bm_some_stable sim t matched l2 _ ?_
    refine bmStep_someStable sim t matched acc1 x ?_
    rw [hacc]; rfl

/-- If an available item at some position has ratio exactly `1`, the
selected item is an available ratio-`1` item at that position or
earlier. -/
theorem bestMatch_exact_earliest (sim : String → String → ℚ)
    (matched : List Nat) (t : String)
    (hle : ∀ item : CLItem, simR sim t item ≤ 1)
    (l1 l2 : List CLItem) (x : CLItem) (hav : x.id ∉ matched)
    (hrx : simR sim t x = 1) :
    ∃ y, (y ∈ l1 ∨ y = x) ∧ y.id ∉ matched ∧ simR sim t y = 1 ∧
      bestMatch sim (l1 ++ x :: l2) matched t = some y.id := by
  unfold bestMatch
  rw [List.foldl_append, List.foldl_cons]
  set acc1 := List.foldl (bmStep sim t matched) (none, 0) l1 with hacc1
  rcases accInv_foldl sim t matched l1 l1 (fun y hy => hy) (none, 0) (Or.inl rfl)
      with h0 | ⟨y, hymem, hyav, hyacc, -⟩
  · rw [← hacc1] at h0
    have hstep : bmStep sim t matched acc1 x = (some x.id, simR sim t x) := by
      refine bmStep_update sim t matched acc1 x hav ?_ ?_
      · rw [h0, hrx]; norm_num
      · rw [hrx]; decide
    rw [hstep, hrx, bm_one_stable sim t matched hle l2 _ rfl]
    exact ⟨x, Or.inr rfl, hav, hrx, rfl⟩
  · rw [← hacc1] at hyacc
    rcases lt_or_eq_of_le (hle y) with hylt | hyone
    · have hstep : bmStep sim t matched acc1 x = (some x.id, simR sim t x) := by
        refine bmStep_update sim t matched acc1 x hav ?_ ?_
        · rw [hyacc, hrx]; exact hylt
        · rw [hrx]; decide
      rw [hstep, hrx, bm_one_stable sim t matched hle l2 _ rfl]
      exact ⟨x, Or.inr rfl, hav, hrx, rfl⟩
    · have hstep : bmStep sim t matched acc1 x = acc1 := by
        refine bmStep_keep sim t matched acc1 x ?_
        rintro ⟨hlt, -⟩
        rw [hyacc] at hlt
        have h11 : (1 : ℚ) < 1 := by
          have h2 := hlt
          rw [hrx] at h2
          simpa [hyone] using h2
        exact absurd h11 (lt_irrefl 1)
      have hone : acc1.2 = 1 := by rw [hyacc]; exact hyone
      rw [hstep, bm_one_stable sim t matched hle l2 _ hone, hyacc]
      exact ⟨y, Or.inl hymem, hyav, hyone, rfl⟩

/-- If `x` is available with ratio exactly `1` and every available item
before it has ratio `< 1`, the greedy fold selects `x`. -/
theorem bestMatch_eq_first_exact (sim : String → String → ℚ)
    (matched : List Nat) (t : String)
    (hle : ∀ item : CLItem, simR sim t item ≤ 1)
    (l1 l2 : List CLItem) (x : CLItem) (hav : x.id ∉ matched)
    (hrx : simR sim t x = 1)
    (hpre : ∀ z ∈ l1, z.id ∉ matched → simR sim t z < 1) :
    bestMatch sim (l1 ++ x :: l2) matched t = some x.id := by
  unfold bestMatch
  rw [List.foldl_append, List.foldl_cons]
  set acc1 := List.foldl (bmStep sim t matched) (none, 0) l1 with hacc1
  have hlt1 : acc1.2 < 1 := by
    rw [hacc1]
    exact bm_lt_one sim t matched l1 hpre (none, 0) (by norm_num)
  have hstep : bmStep sim t matched acc1 x = (some x.id, simR sim t x) := by
    refine bmStep_update sim t matched acc1 x hav ?_ ?_
    · rw [hrx]; exact hlt1
    · rw [hrx]; decide
  rw [hstep, hrx, bm_one_stable sim t matched hle l2 _ rfl]

/-! ### The matching loop -/

theorem bmStep_congr (sim : String → String → ℚ) (t : String) (m1 m2 : List Nat)
    (h : ∀ x, x ∈ m1 ↔ x ∈ m2) : bmStep sim t m1 = bmStep sim t m2 := by
  funext acc item
  unfold bmStep
  by_cases hm : item.id ∈ m1
  · simp [hm, (h item.id).mp hm]
  · have hm2 : item.id ∉ m2 := fun c => hm ((h item.id).mpr c)
    simp [hm, hm2]

/-- `bestMatch` depends on the matched set only through membership. -/
theorem bestMatch_congr (sim : String → String → ℚ) (l : List CLItem)
    (m1 m2 : List Nat) (t : String) (h : ∀ x, x ∈ m1 ↔ x ∈ m2) :
    bestMatch sim l m1 t = bestMatch sim l m2 t := by
  unfold bestMatch
  rw [bmStep_congr sim t m1 m2 h]

theorem cmAux_length (sim : String → String → ℚ) (l : List CLItem) :
    ∀ (ts : List String) (m : List Nat),
      (computeMatchesAux sim l ts m).length = ts.length
  | [], _ => rfl
  | t :: ts, m => by
    unfold computeMatchesAux
    cases h : bestMatch sim l m t <;>
      simp [cmAux_length sim l ts]

/-- The ids handed out by the matching loop are distinct and disjoint
from the initially matched set. -/
theorem cmAux_nodup (sim : String → String → ℚ) (l : List CLItem) :
    ∀ (ts : List String) (m : List Nat), m.Nodup →
      ((computeMatchesAux sim l ts m).filterMap id ++ m).Nodup
  | [], m, hm => by simpa using hm
  | t :: ts, m, hm => by
    unfold computeMatchesAux
    cases h : bestMatch sim l m t with
    | none => simpa using cmAux_nodup sim l ts m hm
    | some i =>
      obtain ⟨-, -, -, hi, -⟩ := bestMatch_mem sim l m t i h
      have hrec := cmAux_nodup sim l ts (i :: m) (List.nodup_cons.mpr ⟨hi, hm⟩)
      have hperm : List.Perm
          ((computeMatchesAux sim l ts (i :: m)).filterMap id ++ i :: m)
          (i :: ((computeMatchesAux sim l ts (i :: m)).filterMap id ++ m)) :=
        List.perm_middle
      simpa using hperm.nodup_iff.mp hrec

/-- The entry at index `k` of the matching loop's output is the
`bestMatch` of the `k`-th text against the items matched so far. -/
theorem cmAux_get (sim : String → String → ℚ) (l : List CLItem) :
    ∀ (ts : List String) (m : List Nat) (k : Nat) (hk : k < ts.length)
      (hk2 : k < (computeMatchesAux sim l ts m).length),
      (computeMatchesAux sim l ts m).get ⟨k, hk2⟩ =
        bestMatch sim l
          (((computeMatchesAux sim l ts m).take k).filterMap id ++ m)
          (ts.get ⟨k, hk⟩)
  | [], _, k, hk, _ => absurd hk (Nat.not_lt_zero k)
  | t :: ts, m, 0, hk, hk2 => by
    cases h : bestMatch sim l m t <;> simp [computeMatchesAux, h]
  | t :: ts, m, k + 1, hk, hk2 => by
    have hk' : k < ts.length := Nat.lt_of_succ_lt_succ hk
    cases h : bestMatch sim l m t with
    | none =>
      have hk2' : k < (computeMatchesAux sim l ts m).length := by
        rw [cmAux_length]; exact hk'
      have hrec := cmAux_get sim l ts m k hk' hk2'
      simpa [computeMatchesAux, h] using hrec
    | some i =>
      have hcons : computeMatchesAux sim l (t :: ts) m
          = some i :: computeMatchesAux sim l ts (i :: m) := by
        rw [computeMatchesAux, h]
      have hk2' : k < (computeMatchesAux sim l ts (i :: m)).length := by
        rw [cmAux_length]; exact hk'
      have hrec := cmAux_get sim l ts (i :: m) k hk' hk2'
      have hcongr := bestMatch_congr sim l
        (((computeMatchesAux sim l ts (i :: m)).take k).filterMap id ++ i :: m)
        (i :: (((computeMatchesAux sim l ts (i :: m)).take k).filterMap id ++ m))
        (ts.get ⟨k, hk'⟩)
        (fun x => by
          constructor
          · intro hx
            rcases List.mem_append.mp hx with hx | hx
            · exact List.mem_cons_of_mem i (List.mem_append_left _ hx)
            · rcases List.mem_cons.mp hx with rfl | hx
              · exact List.mem_cons_self x _
              · exact List.mem_cons_of_mem i (List.mem_append_right _ hx)
          · intro hx
            rcases List.mem_cons.mp hx with rfl | hx
            · exact List.mem_append_right _ (List.mem_cons_self x _)
            · rcases List.mem_append.mp hx with hx | hx
              · exact List.mem_append_left _ hx
              · exact List.mem_append_right _ (List.mem_cons_of_mem i hx))
      have hget : (computeMatchesAux sim l (t :: ts) m).get ⟨k + 1, hk2⟩
          = (computeMatchesAux sim l ts (i :: m)).get ⟨k, hk2'⟩ := by
        rw [List.get_of_eq hcons ⟨k + 1, hk2⟩]
        exact List.get_cons_succ
      rw [hget, hcons, List.take_succ_cons, List.get_cons_succ]
      exact hrec.trans hcongr

/-- Distinct positions of the assignment never carry the same id. -/
theorem somes_inj : ∀ (asgn : List (Option Nat)),
    (asgn.filterMap id).Nodup →
    ∀ (k1 k2 : Nat) (h1 : k1 < asgn.length) (h2 : k2 < asgn.length) (i : Nat),
      asgn.get ⟨k1, h1⟩ = some i → asgn.get ⟨k2, h2⟩ = some i → k1 = k2
  | [], _, k1, _, h1, _, _, _, _ => absurd h1 (Nat.not_lt_zero k1)
  | o :: asgn, hnd, k1, k2, h1, h2, i, hg1, hg2 => by
    match k1, k2 with
    | 0, 0 => rfl
    | 0, k2 + 1 =>
      exfalso
      simp only [List.get] at hg1 hg2
      subst hg1
      have hmem : some i ∈ asgn := by
        have hgm := List.get_mem asgn k2 (Nat.lt_of_succ_lt_succ h2)
        rwa [hg2] at hgm
      have hnd2 : (i :: asgn.filterMap id).Nodup := hnd
      exact (List.nodup_cons.mp hnd2).1
        (List.mem_filterMap.mpr ⟨some i, hmem, rfl⟩)
    | k1 + 1, 0 =>
      exfalso
      simp only [List.get] at hg1 hg2
      subst hg2
      have hmem : some i ∈ asgn := by
        have hgm := List.get_mem asgn k1 (Nat.lt_of_succ_lt_succ h1)
        rwa [hg1] at hgm
      have hnd2 : (i :: asgn.filterMap id).Nodup := hnd
      exact (List.nodup_cons.mp hnd2).1
        (List.mem_filterMap.mpr ⟨some i, hmem, rfl⟩)
    | k1 + 1, k2 + 1 =>
      have hnd' : (asgn.filterMap id).Nodup := by
        cases o with
        | none => exact hnd
        | some j =>
          have hnd2 : (j :: asgn.filterMap id).Nodup := hnd
          exact (List.nodup_cons.mp hnd2).2
      simp only [List.get] at hg1 hg2
      exact congrArg Nat.succ
        (somes_inj asgn hnd' k1 k2 (Nat.lt_of_succ_lt_succ h1)
          (Nat.lt_of_succ_lt_succ h2) i hg1 hg2)

theorem assignedText_eq :
    ∀ (texts : List String) (asgn : List (Option Nat)) (i : Nat)
      (k : Nat) (hk : k < texts.length) (hk2 : k < asgn.length),
      asgn.get ⟨k, hk2⟩ = some i →
      (∀ (k2 : Nat) (h2 : k2 < asgn.length), asgn.get ⟨k2, h2⟩ = some i → k2 = k) →
      assignedText texts asgn i = some (texts.get ⟨k, hk⟩)
  | [], _, _, k, hk, _, _, _ => absurd hk (Nat.not_lt_zero k)
  | t :: ts, [], _, k, _, hk2, _, _ => absurd hk2 (Nat.not_lt_zero k)
  | t :: ts, o :: os, i, 0, hk, hk2, hget, huniq => by
    simp only [List.get] at hget
    subst hget
    unfold assignedText
    simp
  | t :: ts, o :: os, i, k + 1, hk, hk2, hget, huniq => by
    have ho : o ≠ some i := by
      intro rfl0
      have := huniq 0 (Nat.succ_pos _) (by simpa using rfl0)
      exact absurd this.symm (Nat.succ_ne_zero k)
    have hrec := assignedText_eq ts os i k (Nat.lt_of_succ_lt_succ hk)
      (Nat.lt_of_succ_lt_succ hk2) (by simpa using hget)
      (fun k2 h2 hg => by
        have := huniq (k2 + 1) (Nat.succ_lt_succ h2) (by simpa using hg)
        exact Nat.succ_injective this)
    unfold assignedText at hrec ⊢
    have hdec : (decide (o = some i)) = false := decide_eq_false ho
    simp only [List.zip_cons_cons, List.find?, hdec]
    exact hrec

theorem assignedText_notmem (texts : List String) (asgn : List (Option Nat))
    (i : Nat) (h : some i ∉ asgn) : assignedText texts asgn i = none := by
  unfold assignedText
  rw [List.find?_eq_none.mpr]
  intro p hp
  have hmem := List.of_mem_zip hp
  simp only [decide_eq_true_eq]
  intro hpi
  exact h (hpi ▸ hmem.2)

theorem assignedText_mem (texts : List String) (asgn : List (Option Nat))
    (i : Nat) (t : String) (h : assignedText texts asgn i = some t) :
    t ∈ texts := by
  unfold assignedText at h
  cases hf : (texts.zip asgn).find? (fun p => p.2 = some i) with
  | none => rw [hf] at h; exact absurd h (by simp)
  | some p =>
    rw [hf] at h
    simp only [Option.some.injEq] at h
    subst h
    exact (List.of_mem_zip (List.mem_of_find?_eq_some hf)).1

theorem applyText_id (texts : List String) (asgn : List (Option Nat)) (x : CLItem) :
    (applyText texts asgn x).id = x.id := by
  unfold applyText; cases assignedText texts asgn x.id <;> rfl

theorem applyText_is_checked (texts : List String) (asgn : List (Option Nat)) (x : CLItem) :
    (applyText texts asgn x).is_checked = x.is_checked := by
  unfold applyText; cases assignedText texts asgn x.id <;> rfl

theorem applyText_checked_at (texts : List String) (asgn : List (Option Nat)) (x : CLItem) :
    (applyText texts asgn x).checked_at = x.checked_at := by
  unfold applyText; cases assignedText texts asgn x.id <;> rfl

theorem applyText_event_date (texts : List String) (asgn : List (Option Nat)) (x : CLItem) :
    (applyText texts asgn x).event_date = x.event_date := by
  unfold applyText; cases assignedText texts asgn x.id <;> rfl

theorem applyText_created_at (texts : List String) (asgn : List (Option Nat)) (x : CLItem) :
    (applyText texts asgn x).created_at = x.created_at := by
  unfold applyText; cases assignedText texts asgn x.id <;> rfl

theorem newItems_spec : ∀ (pairs : List (String × Option Nat)) (nid now : Nat)
    (y : CLItem), y ∈ newItems pairs nid now →
      y.is_checked = false ∧ y.checked_at = none ∧ y.event_date = none ∧
        y.created_at = now ∧ nid ≤ y.id ∧ (y.item_text, (none : Option Nat)) ∈ pairs
  | [], _, _, y, hy => absurd hy (List.not_mem_nil y)
  | (t, none) :: rest, nid, now, y, hy => by
    rcases List.mem_cons.mp hy with rfl | hy
    · exact ⟨rfl, rfl, rfl, rfl, le_refl _, List.mem_cons_self _ _⟩
    · obtain ⟨h1, h2, h3, h4, h5, h6⟩ := newItems_spec rest (nid + 1) now y hy
      exact ⟨h1, h2, h3, h4, le_trans (Nat.le_succ nid) h5, List.mem_cons_of_mem _ h6⟩
  | (t, some j) :: rest, nid, now, y, hy => by
    obtain ⟨h1, h2, h3, h4, h5, h6⟩ := newItems_spec rest nid now y hy
    exact ⟨h1, h2, h3, h4, h5, List.mem_cons_of_mem _ h6⟩

/-! ### Claims C1 and C10 -/

/-- C1: for every checklist category and every input text list, after
`sync_items_from_summary` completes, every checklist item that was
checked before the call still exists afterwards (a checked item is
never deleted by reconciliation, whether or not any new text matched
it), while every pre-existing unchecked item that the matching loop
matched to no new text at the similarity threshold is deleted.  The
hypotheses are the database invariants: primary keys are distinct and
the autoincrement id exceeds every existing id. -/
theorem sync_checked_retained_unchecked_unmatched_deleted
    (sim : String → String → ℚ) (existing : List CLItem) (texts : List String)
    (nid now : Nat)
    (hids : (existing.map CLItem.id).Nodup)
    (hbound : ∀ x ∈ existing, x.id < nid) :
    (∀ x ∈ existing, x.is_checked = true →
      ∃ y ∈ sync_items_from_summary sim existing texts nid now,
        y.id = x.id ∧ y.is_checked = true) ∧
    (∀ x ∈ existing, x.is_checked = false →
      some x.id ∉ computeMatches sim existing texts →
      ∀ y ∈ sync_items_from_summary sim existing texts nid now, y.id ≠ x.id) := by
  constructor
  · intro x hx hchk
    refine ⟨applyText texts (computeMatches sim existing texts) x, ?_, ?_, ?_⟩
    · unfold sync_items_from_summary
      refine List.mem_append_left _ (List.mem_filter.mpr ⟨List.mem_map_of_mem _ hx, ?_⟩)
      unfold keepItem
      simp [applyText_is_checked, hchk]
    · exact applyText_id _ _ _
    · rw [applyText_is_checked]; exact hchk
  · intro x hx hunchk hnm y hy heq
    unfold sync_items_from_summary at hy
    rcases List.mem_append.mp hy with hy | hy
    · obtain ⟨hmap, hkeep⟩ := List.mem_filter.mp hy
      obtain ⟨x2, hx2, rfl⟩ := List.mem_map.mp hmap
      rw [applyText_id] at heq
      have hx2x : x2 = x := List.inj_on_of_nodup_map hids hx2 hx heq
      subst hx2x
      unfold keepItem at hkeep
      rw [applyText_id, applyText_is_checked, hunchk] at hkeep
      simp only [Bool.or_false] at hkeep
      exact hnm (by simpa using hkeep)
    · obtain ⟨-, -, -, -, hge, -⟩ := newItems_spec _ _ _ _ hy
      rw [heq] at hge
      exact absurd (hbound x hx) (Nat.not_lt_of_le hge)

/-- Concrete scenario for the C1 theorem: one checked and one unchecked
item, one new text matching neither, with the real difflib ratio. -/
def c1Existing : List CLItem :=
  [⟨1, "sign the permission slip", true, some 5, none, 0⟩,
   ⟨2, "bring snacks friday", false, none, none, 0⟩]

theorem sync_checked_retained_unchecked_unmatched_deleted_witness :
    ((c1Existing.map CLItem.id).Nodup ∧ ∀ x ∈ c1Existing, x.id < 3) ∧
    ((∀ x ∈ c1Existing, x.is_checked = true →
      ∃ y ∈ sync_items_from_summary difflibRatio c1Existing ["pay the art fee"] 3 9,
        y.id = x.id ∧ y.is_checked = true) ∧
    (∀ x ∈ c1Existing, x.is_checked = false →
      some x.id ∉ computeMatches difflibRatio c1Existing ["pay the art fee"] →
      ∀ y ∈ sync_items_from_summary difflibRatio c1Existing ["pay the art fee"] 3 9,
        y.id ≠ x.id)) :=
  ⟨⟨by decide, by decide⟩,
    sync_checked_retained_unchecked_unmatched_deleted difflibRatio c1Existing
      ["pay the art fee"] 3 9 (by decide) (by decide)⟩

/-- C10: `sync_items_from_summary` never modifies `is_checked`,
`checked_at` (nor `event_date`, `created_at`) of any surviving item:
every item of the result is either a pre-existing item, all of whose
columns except possibly `item_text` are unchanged and whose text, if
changed, was overwritten with one of the new texts, or a brand-new
item, unchecked, with no `checked_at`, a fresh id, and one of the new
texts. -/
theorem sync_frame_only_text_insert_delete
    (sim : String → String → ℚ) (existing : List CLItem) (texts : List String)
    (nid now : Nat) :
    ∀ y ∈ sync_items_from_summary sim existing texts nid now,
      (∃ x ∈ existing, y.id = x.id ∧ y.is_checked = x.is_checked ∧
        y.checked_at = x.checked_at ∧ y.event_date = x.event_date ∧
        y.created_at = x.created_at ∧
        (y.item_text = x.item_text ∨ y.item_text ∈ texts)) ∨
      (y.is_checked = false ∧ y.checked_at = none ∧ nid ≤ y.id ∧
        y.item_text ∈ texts) := by
  intro y hy
  unfold sync_items_from_summary at hy
  rcases List.mem_append.mp hy with hy | hy
  · obtain ⟨hmap, -⟩ := List.mem_filter.mp hy
    obtain ⟨x, hx, rfl⟩ := List.mem_map.mp hmap
    refine Or.inl ⟨x, hx, applyText_id _ _ _, applyText_is_checked _ _ _,
      applyText_checked_at _ _ _, applyText_event_date _ _ _,
      applyText_created_at _ _ _, ?_⟩
    unfold applyText
    cases h : assignedText texts (computeMatches sim existing texts) x.id with
    | none => exact Or.inl rfl
    | some t => exact Or.inr (assignedText_mem _ _ _ _ h)
  · obtain ⟨h1, h2, -, -, h5, h6⟩ := newItems_spec _ _ _ _ hy
    exact Or.inr ⟨h1, h2, h5, (List.of_mem_zip h6).1⟩

theorem sync_frame_only_text_insert_delete_witness :
    (⟨2, "buy glue sticks", false, none, none, 7⟩ : CLItem) ∈
      sync_items_from_summary difflibRatio
        [⟨1, "bring snacks friday!", false, none, none, 0⟩] ["buy glue sticks"] 2 7 ∧
    ((∃ x ∈ [(⟨1, "bring snacks friday!", false, none, none, 0⟩ : CLItem)],
        (⟨2, "buy glue sticks", false, none, none, 7⟩ : CLItem).id = x.id ∧
        (⟨2, "buy glue sticks", false, none, none, 7⟩ : CLItem).is_checked = x.is_checked ∧
        (⟨2, "buy glue sticks", false, none, none, 7⟩ : CLItem).checked_at = x.checked_at ∧
        (⟨2, "buy glue sticks", false, none, none, 7⟩ : CLItem).event_date = x.event_date ∧
        (⟨2, "buy glue sticks", false, none, none, 7⟩ : CLItem).created_at = x.created_at ∧
        ((⟨2, "buy glue sticks", false, none, none, 7⟩ : CLItem).item_text = x.item_text ∨
          (⟨2, "buy glue sticks", false, none, none, 7⟩ : CLItem).item_text ∈ ["buy glue sticks"])) ∨
      ((⟨2, "buy glue sticks", false, none, none, 7⟩ : CLItem).is_checked = false ∧
        (⟨2, "buy glue sticks", false, none, none, 7⟩ : CLItem).checked_at = none ∧
        2 ≤ (⟨2, "buy glue sticks", false, none, none, 7⟩ : CLItem).id ∧
        (⟨2, "buy glue sticks", false, none, none, 7⟩ : CLItem).item_text ∈ ["buy glue sticks"])) :=
  ⟨by decide,
    sync_frame_only_text_insert_delete difflibRatio
      [⟨1, "bring snacks friday!", false, none, none, 0⟩] ["buy glue sticks"] 2 7
      ⟨2, "buy glue sticks", false, none, none, 7⟩ (by decide)⟩

/-! ### Claim C8: idempotence of reconciliation -/

/-- C8 counterexample: `sync_items_from_summary` is not idempotent
under repeated identical input.  With items "abcde" (id 1) and "abcd"
(id 2) and new texts `["ABCD", "abcd"]`, the first run matches "ABCD"
to item 2 (ratio 1 beats 8/9) and "abcd" to item 1, producing texts
`["abcd", "ABCD"]`; the second run re-matches "ABCD" to item 1 (now an
exact case-insensitive match, encountered first) and "abcd" to item 2,
swapping the two texts back.  The second run therefore changes the
state the first run produced. -/
theorem sync_items_not_idempotent_counterexample :
    sync_items_from_summary difflibRatio
      (sync_items_from_summary difflibRatio
        [⟨1, "abcde", false, none, none, 0⟩, ⟨2, "abcd", false, none, none, 0⟩]
        ["ABCD", "abcd"] 3 10)
      ["ABCD", "abcd"] 3 20
    ≠ sync_items_from_summary difflibRatio
        [⟨1, "abcde", false, none, none, 0⟩, ⟨2, "abcd", false, none, none, 0⟩]
        ["ABCD", "abcd"] 3 10 := by decide

/-- The id that run two is expected to re-match for each text index:
the id the first run's assignment matched, or, for texts that matched
nothing, the id of the brand-new row the first run created for them
(autoincrement ids are handed out in input order starting at `nid`). -/
def partnerId : List (Option Nat) → Nat → List Nat
  | [], _ => []
  | some i :: rest, nid => i :: partnerId rest nid
  | none :: rest, nid => nid :: partnerId rest (nid + 1)

theorem partnerId_length : ∀ (asgn : List (Option Nat)) (nid : Nat),
    (partnerId asgn nid).length = asgn.length
  | [], _ => rfl
  | some i :: rest, nid => by simp [partnerId, partnerId_length rest nid]
  | none :: rest, nid => by simp [partnerId, partnerId_length rest (nid + 1)]

theorem partnerId_get_some : ∀ (asgn : List (Option Nat)) (nid : Nat) (k : Nat)
    (hk : k < asgn.length) (hk2 : k < (partnerId asgn nid).length) (i : Nat),
    asgn.get ⟨k, hk⟩ = some i → (partnerId asgn nid).get ⟨k, hk2⟩ = i
  | [], _, k, hk, _, _, _ => absurd hk (Nat.not_lt_zero k)
  | some j :: rest, nid, 0, hk, hk2, i, hget => by
    obtain rfl : j = i := by simpa using hget
    rfl
  | none :: rest, nid, 0, hk, hk2, i, hget => by
    exact absurd hget (by simp [List.get])
  | some j :: rest, nid, k + 1, hk, hk2, i, hget => by
    simp only [partnerId] at hk2 ⊢
    exact partnerId_get_some rest nid k (Nat.lt_of_succ_lt_succ hk) _ i
      (by simpa using hget)
  | none :: rest, nid, k + 1, hk, hk2, i, hget => by
    simp only [partnerId] at hk2 ⊢
    exact partnerId_get_some rest (nid + 1) k (Nat.lt_of_succ_lt_succ hk) _ i
      (by simpa using hget)

theorem partnerId_get_none : ∀ (asgn : List (Option Nat)) (nid : Nat) (k : Nat)
    (hk : k < asgn.length) (hk2 : k < (partnerId asgn nid).length),
    asgn.get ⟨k, hk⟩ = none →
    (partnerId asgn nid).get ⟨k, hk2⟩ = nid + ((asgn.take k).countP Option.isNone)
  | [], _, k, hk, _, _ => absurd hk (Nat.not_lt_zero k)
  | some j :: rest, nid, 0, hk, hk2, hget => by
    exact absurd hget (by simp [List.get])
  | none :: rest, nid, 0, hk, hk2, hget => by
    simp [partnerId, List.get]
  | some j :: rest, nid, k + 1, hk, hk2, hget => by
    simp only [partnerId] at hk2 ⊢
    have hrec := partnerId_get_none rest nid k (Nat.lt_of_succ_lt_succ hk)
      (by simpa [partnerId_length] using Nat.lt_of_succ_lt_succ hk) (by simpa using hget)
    simp only [List.get_cons_succ, List.take_succ_cons, List.countP_cons]
    simpa using hrec
  | none :: rest, nid, k + 1, hk, hk2, hget => by
    simp only [partnerId] at hk2 ⊢
    have hrec := partnerId_get_none rest (nid + 1) k (Nat.lt_of_succ_lt_succ hk)
      (by simpa [partnerId_length] using Nat.lt_of_succ_lt_succ hk) (by simpa using hget)
    simp only [List.get_cons_succ, List.take_succ_cons, List.countP_cons]
    rw [hrec]
    simp [Nat.add_assoc, Nat.add_comm 1]

/-- Every expected partner id is either a first-run matched id or at
least `nid`, and the expected partner ids are pairwise distinct. -/
theorem partnerId_mem_cases : ∀ (asgn : List (Option Nat)) (nid : Nat) (p : Nat),
    p ∈ partnerId asgn nid → p ∈ asgn.filterMap id ∨ nid ≤ p
  | [], _, p, hp => absurd hp (List.not_mem_nil p)
  | some i :: rest, nid, p, hp => by
    simp only [partnerId, List.mem_cons] at hp
    rcases hp with rfl | hp
    · exact Or.inl (by simp)
    · rcases partnerId_mem_cases rest nid p hp with h | h
      · exact Or.inl (by simp [h])
      · exact Or.inr h
  | none :: rest, nid, p, hp => by
    simp only [partnerId, List.mem_cons] at hp
    rcases hp with rfl | hp
    · exact Or.inr (le_refl p)
    · rcases partnerId_mem_cases rest (nid + 1) p hp with h | h
      · exact Or.inl (by simpa using h)
      · exact Or.inr (le_trans (Nat.le_succ nid) h)

theorem partnerId_nodup : ∀ (asgn : List (Option Nat)) (nid : Nat),
    (asgn.filterMap id).Nodup → (∀ i ∈ asgn.filterMap id, i < nid) →
    (partnerId asgn nid).Nodup
  | [], _, _, _ => List.nodup_nil
  | some i :: rest, nid, hnd, hlt => by
    have hnd2 : (i :: rest.filterMap id).Nodup := hnd
    refine List.nodup_cons.mpr ⟨?_, partnerId_nodup rest nid
      (List.nodup_cons.mp hnd2).2 (fun j hj => hlt j (by simp [hj]))⟩
    intro hmem
    rcases partnerId_mem_cases rest nid i hmem with h | h
    · exact (List.nodup_cons.mp hnd2).1 h
    · exact absurd (hlt i (by simp)) (Nat.not_lt_of_le h)
  | none :: rest, nid, hnd, hlt => by
    refine List.nodup_cons.mpr ⟨?_, partnerId_nodup rest (nid + 1)
      (by simpa using hnd)
      (fun j hj => lt_trans (hlt j (by simpa using hj)) (Nat.lt_succ_self nid))⟩
    intro hmem
    rcases partnerId_mem_cases rest (nid + 1) nid hmem with h | h
    · exact absurd (hlt nid (by simpa using h)) (lt_irrefl nid)
    · exact absurd h (Nat.not_succ_le_self nid)

theorem nodup_get_not_mem_take : ∀ (l : List Nat), l.Nodup →
    ∀ (k : Nat) (hk : k < l.length), l.get ⟨k, hk⟩ ∉ l.take k
  | [], _, k, hk => absurd hk (Nat.not_lt_zero k)
  | a :: l, hnd, 0, hk => by simp
  | a :: l, hnd, k + 1, hk => by
    simp only [List.take_succ_cons, List.mem_cons, List.get_cons_succ]
    rintro (h | h)
    · exact (List.nodup_cons.mp hnd).1 (h ▸ List.get_mem l k _)
    · exact nodup_get_not_mem_take l (List.nodup_cons.mp hnd).2 k
        (Nat.lt_of_succ_lt_succ hk) h

/-- The new row created for the `k`-th text when the first run matched
it to nothing: its id is `nid` plus the number of earlier unmatched
texts. -/
theorem newItems_get_of_none :
    ∀ (texts : List String) (asgn : List (Option Nat)) (nid now : Nat)
      (k : Nat) (hk : k < texts.length) (hk2 : k < asgn.length),
      asgn.get ⟨k, hk2⟩ = none →
      (⟨nid + ((asgn.take k).countP Option.isNone), texts.get ⟨k, hk⟩,
        false, none, none, now⟩ : CLItem) ∈ newItems (texts.zip asgn) nid now
  | [], _, _, _, k, hk, _, _ => absurd hk (Nat.not_lt_zero k)
  | t :: ts, [], _, _, k, _, hk2, _ => absurd hk2 (Nat.not_lt_zero k)
  | t :: ts, none :: os, nid, now, 0, hk, hk2, hget => by
    simp [newItems, List.zip_cons_cons]
  | t :: ts, some j :: os, nid, now, 0, hk, hk2, hget => by
    exact absurd hget (by simp [List.get])
  | t :: ts, none :: os, nid, now, k + 1, hk, hk2, hget => by
    simp only [List.zip_cons_cons, newItems, List.take_succ_cons, List.countP_cons,
      List.get_cons_succ]
    refine List.mem_cons_of_mem _ ?_
    have hrec := newItems_get_of_none ts os (nid + 1) now k
      (Nat.lt_of_succ_lt_succ hk) (Nat.lt_of_succ_lt_succ hk2) (by simpa using hget)
    have harith : nid + 1 + (os.take k).countP Option.isNone
        = nid + ((os.take k).countP Option.isNone + (if Option.isNone (none : Option Nat) then 1 else 0)) := by
      simp [Nat.add_assoc, Nat.add_comm 1]
    simpa [harith] using hrec
  | t :: ts, some j :: os, nid, now, k + 1, hk, hk2, hget => by
    simp only [List.zip_cons_cons, newItems, List.take_succ_cons, List.countP_cons,
      List.get_cons_succ]
    have hrec := newItems_get_of_none ts os nid now k
      (Nat.lt_of_succ_lt_succ hk) (Nat.lt_of_succ_lt_succ hk2) (by simpa using hget)
    simpa using hrec

/-- Conversely, every new row comes from some unmatched text index. -/
theorem newItems_mem_inv :
    ∀ (texts : List String) (asgn : List (Option Nat)) (nid now : Nat) (y : CLItem),
      y ∈ newItems (texts.zip asgn) nid now →
      ∃ (k : Nat) (hk : k < texts.length) (hk2 : k < asgn.length),
        asgn.get ⟨k, hk2⟩ = none ∧
        y = ⟨nid + ((asgn.take k).countP Option.isNone), texts.get ⟨k, hk⟩,
          false, none, none, now⟩
  | [], _, _, _, y, hy => absurd hy (by simp [newItems])
  | t :: ts, [], _, _, y, hy => absurd hy (by simp [newItems])
  | t :: ts, none :: os, nid, now, y, hy => by
    simp only [List.zip_cons_cons, newItems, List.mem_cons] at hy
    rcases hy with rfl | hy
    · exact ⟨0, by simp, by simp, rfl, by simp⟩
    · obtain ⟨k, hk, hk2, hget, hval⟩ := newItems_mem_inv ts os (nid + 1) now y hy
      refine ⟨k + 1, Nat.succ_lt_succ hk, Nat.succ_lt_succ hk2, by simpa using hget, ?_⟩
      rw [hval]
      simp only [List.take_succ_cons, List.countP_cons, List.get_cons_succ]
      congr 1
      simp [Nat.add_assoc, Nat.add_comm 1]
  | t :: ts, some j :: os, nid, now, y, hy => by
    simp only [List.zip_cons_cons, newItems] at hy
    obtain ⟨k, hk, hk2, hget, hval⟩ := newItems_mem_inv ts os nid now y hy
    refine ⟨k + 1, Nat.succ_lt_succ hk, Nat.succ_lt_succ hk2, by simpa using hget, ?_⟩
    rw [hval]
    simp [List.take_succ_cons, List.countP_cons]

/-- When every text matched, no new rows are created. -/
theorem newItems_all_some : ∀ (texts : List String) (pids : List Nat) (nid now : Nat),
    newItems (texts.zip (pids.map some)) nid now = []
  | [], _, _, _ => rfl
  | t :: ts, [], _, _ => rfl
  | t :: ts, p :: ps, nid, now => by
    simp only [List.map_cons, List.zip_cons_cons, newItems]
    exact newItems_all_some ts ps nid now

/-! ### First-run facts feeding the idempotence analysis -/

theorem somes_nodup (sim : String → String → ℚ) (existing : List CLItem)
    (texts : List String) :
    ((computeMatches sim existing texts).filterMap id).Nodup := by
  simpa using cmAux_nodup sim existing texts [] List.nodup_nil

theorem computeMatches_length (sim : String → String → ℚ) (existing : List CLItem)
    (texts : List String) :
    (computeMatches sim existing texts).length = texts.length :=
  cmAux_length sim existing texts []

/-- Every id the matching loop hands out is the id of an existing item. -/
theorem matched_id_exists (sim : String → String → ℚ) (existing : List CLItem)
    (texts : List String) (i : Nat)
    (hmem : some i ∈ computeMatches sim existing texts) :
    ∃ x ∈ existing, x.id = i := by
  obtain ⟨⟨k, hk⟩, hget⟩ := List.mem_iff_get.mp hmem
  have hk' : k < texts.length := by
    rw [← computeMatches_length sim existing texts]; exact hk
  have hget2 : (computeMatchesAux sim existing texts []).get ⟨k, hk⟩ = some i := hget
  rw [cmAux_get sim existing texts [] k hk' hk] at hget2
  obtain ⟨x, hx, hxi, -, -⟩ := bestMatch_mem _ _ _ _ _ hget2
  exact ⟨x, hx, hxi⟩

theorem newItems_sorted : ∀ (pairs : List (String × Option Nat)) (nid now : Nat),
    (newItems pairs nid now).Pairwise (fun a b => a.id < b.id)
  | [], _, _ => List.Pairwise.nil
  | (t, none) :: rest, nid, now => by
    refine List.pairwise_cons.mpr ⟨?_, newItems_sorted rest (nid + 1) now⟩
    intro y hy
    obtain ⟨-, -, -, -, hge, -⟩ := newItems_spec rest (nid + 1) now y hy
    exact Nat.lt_of_succ_le hge
  | (t, some j) :: rest, nid, now => newItems_sorted rest nid now

/-- The reconciled state is still sorted by primary key: survivors keep
their ids and order, and the new rows get larger, increasing ids. -/
theorem sync_sorted (sim : String → String → ℚ) (existing : List CLItem)
    (texts : List String) (nid now : Nat)
    (hsort : existing.Pairwise (fun a b => a.id < b.id))
    (hbound : ∀ x ∈ existing, x.id < nid) :
    (sync_items_from_summary sim existing texts nid now).Pairwise
      (fun a b => a.id < b.id) := by
  unfold sync_items_from_summary
  refine List.pairwise_append.mpr ⟨?_, newItems_sorted _ _ _, ?_⟩
  · refine List.Pairwise.sublist (List.filter_sublist _) ?_
    refine List.pairwise_map.mpr ?_
    refine hsort.imp ?_
    intro a b h
    rw [applyText_id, applyText_id]
    exact h
  · intro a ha b hb
    obtain ⟨hmap, -⟩ := List.mem_filter.mp ha
    obtain ⟨x, hx, rfl⟩ := List.mem_map.mp hmap
    obtain ⟨-, -, -, -, hge, -⟩ := newItems_spec _ _ _ _ hb
    rw [applyText_id]
    exact lt_of_lt_of_le (hbound x hx) hge

theorem keepItem_true_of_mem (asgn : List (Option Nat)) (y : CLItem)
    (h : some y.id ∈ asgn) : keepItem asgn y = true := by
  unfold keepItem
  simp [h]

/-- For every text index, the reconciled state contains that text's
partner: the matched existing item (now carrying exactly that text) or
the new row created for it. -/
theorem run1_partner (sim : String → String → ℚ) (existing : List CLItem)
    (texts : List String) (nid now : Nat)
    (hsort : existing.Pairwise (fun a b => a.id < b.id))
    (k : Nat) (hk : k < texts.length)
    (hka : k < (computeMatches sim existing texts).length)
    (hkp : k < (partnerId (computeMatches sim existing texts) nid).length) :
    ∃ P ∈ sync_items_from_summary sim existing texts nid now,
      P.id = (partnerId (computeMatches sim existing texts) nid).get ⟨k, hkp⟩ ∧
      P.item_text = texts.get ⟨k, hk⟩ := by
  have hids : (existing.map CLItem.id).Nodup :=
    (List.pairwise_map.mpr hsort).imp Nat.ne_of_lt
  cases hget : (computeMatches sim existing texts).get ⟨k, hka⟩ with
  | some i =>
    have hsome : some i ∈ computeMatches sim existing texts := by
      rw [← hget]; exact List.get_mem _ _ _
    obtain ⟨x, hx, hxi⟩ := matched_id_exists sim existing texts i hsome
    refine ⟨applyText texts (computeMatches sim existing texts) x, ?_, ?_, ?_⟩
    · unfold sync_items_from_summary
      refine List.mem_append_left _ (List.mem_filter.mpr
        ⟨List.mem_map_of_mem _ hx, ?_⟩)
      refine keepItem_true_of_mem _ _ ?_
      rw [applyText_id, hxi]
      exact hsome
    · rw [applyText_id, hxi,
        partnerId_get_some (computeMatches sim existing texts) nid k hka hkp i hget]
    · unfold applyText
      rw [hxi, assignedText_eq texts (computeMatches sim existing texts) i k hk hka
        hget (fun k2 h2 hg2 =>
          somes_inj (computeMatches sim existing texts)
            (somes_nodup sim existing texts) k2 k h2 hka i hg2 hget)]
  | none =>
    refine ⟨⟨nid + (((computeMatches sim existing texts).take k).countP Option.isNone),
      texts.get ⟨k, hk⟩, false, none, none, now⟩, ?_, ?_, rfl⟩
    · unfold sync_items_from_summary
      exact List.mem_append_right _
        (newItems_get_of_none texts (computeMatches sim existing texts) nid now k hk
          hka hget)
    · rw [partnerId_get_none (computeMatches sim existing texts) nid k hka hkp hget]

/-- Every unchecked item of the reconciled state is some text's
partner. -/
theorem run1_unchecked_is_partner (sim : String → String → ℚ)
    (existing : List CLItem) (texts : List String) (nid now : Nat)
    (y : CLItem) (hy : y ∈ sync_items_from_summary sim existing texts nid now)
    (hchk : y.is_checked = false) :
    y.id ∈ partnerId (computeMatches sim existing texts) nid := by
  unfold sync_items_from_summary at hy
  rcases List.mem_append.mp hy with hy | hy
  · obtain ⟨hmap, hkeep⟩ := List.mem_filter.mp hy
    obtain ⟨x, hx, rfl⟩ := List.mem_map.mp hmap
    have hchk2 : x.is_checked = false := by
      rw [← applyText_is_checked texts (computeMatches sim existing texts) x]
      exact hchk
    unfold keepItem at hkeep
    simp only [applyText_is_checked, hchk2, Bool.or_false] at hkeep
    have hmem : some (applyText texts (computeMatches sim existing texts) x).id ∈
        computeMatches sim existing texts := by
      simpa using hkeep
    obtain ⟨⟨k, hk⟩, hget⟩ := List.mem_iff_get.mp hmem
    have hkp : k < (partnerId (computeMatches sim existing texts) nid).length := by
      rw [partnerId_length]; exact hk
    rw [← partnerId_get_some (computeMatches sim existing texts) nid k hk hkp _ hget]
    exact List.get_mem _ _ _
  · obtain ⟨k, hk, hk2, hget, rfl⟩ := newItems_mem_inv texts
      (computeMatches sim existing texts) nid now y hy
    have hkp : k < (partnerId (computeMatches sim existing texts) nid).length := by
      rw [partnerId_length]; exact hk2
    rw [← partnerId_get_none (computeMatches sim existing texts) nid k hk2 hkp hget]
    exact List.get_mem _ _ _

/-- An item of the reconciled state that is nobody's partner is an
untouched pre-existing checked item that the first run matched to no
text. -/
theorem run1_extra_char (sim : String → String → ℚ) (existing : List CLItem)
    (texts : List String) (nid now : Nat)
    (z : CLItem) (hz : z ∈ sync_items_from_summary sim existing texts nid now)
    (hnp : z.id ∉ partnerId (computeMatches sim existing texts) nid) :
    z ∈ existing ∧ z.is_checked = true ∧
      some z.id ∉ computeMatches sim existing texts := by
  have hchk : z.is_checked = true := by
    by_contra hc
    have hfalse : z.is_checked = false := by
      cases h : z.is_checked
      · rfl
      · exact absurd h hc
    exact hnp (run1_unchecked_is_partner sim existing texts nid now z hz hfalse)
  have hnm : some z.id ∉ computeMatches sim existing texts := by
    intro hmem
    obtain ⟨⟨k, hk⟩, hget⟩ := List.mem_iff_get.mp hmem
    have hkp : k < (partnerId (computeMatches sim existing texts) nid).length := by
      rw [partnerId_length]; exact hk
    exact hnp (by
      rw [← partnerId_get_some (computeMatches sim existing texts) nid k hk hkp _ hget]
      exact List.get_mem _ _ _)
  refine ⟨?_, hchk, hnm⟩
  unfold sync_items_from_summary at hz
  rcases List.mem_append.mp hz with hz | hz
  · obtain ⟨hmap, -⟩ := List.mem_filter.mp hz
    obtain ⟨x, hx, rfl⟩ := List.mem_map.mp hmap
    have hxnm : some x.id ∉ computeMatches sim existing texts := by
      rw [← applyText_id texts (computeMatches sim existing texts) x]
      exact hnm
    unfold applyText
    rw [assignedText_notmem texts (computeMatches sim existing texts) x.id hxnm]
    exact hx
  · obtain ⟨h1, -, -, -, -, -⟩ := newItems_spec _ _ _ _ hz
    rw [hchk] at h1
    exact absurd h1 (by decide)

/-! ### The second run re-matches every text to its partner -/

/-- Key step: under a ratio function that is reflexively `1`, bounded
by `1`, and faithful at `1` (difflib's ratio is all three), and with
new texts pairwise distinct case-insensitively, the greedy fold of a
second run over the reconciled state picks, for the `k`-th text,
exactly that text's partner from the first run. -/
theorem run2_step (sim : String → String → ℚ) (existing : List CLItem)
    (texts : List String) (nid now : Nat)
    (h1 : ∀ s, sim s s = 1) (h2 : ∀ a b, sim a b ≤ 1)
    (h3 : ∀ a b, sim a b = 1 → a = b)
    (hsort : existing.Pairwise (fun a b => a.id < b.id))
    (hbound : ∀ x ∈ existing, x.id < nid)
    (htexts : ∀ (k1 k2 : Nat) (hk1 : k1 < texts.length) (hk2 : k2 < texts.length),
      strLower (texts.get ⟨k1, hk1⟩) = strLower (texts.get ⟨k2, hk2⟩) → k1 = k2)
    (k : Nat) (hk : k < texts.length)
    (hkp : k < (partnerId (computeMatches sim existing texts) nid).length)
    (m' : List Nat)
    (hm' : ∀ x, x ∈ m' ↔ x ∈ (partnerId (computeMatches sim existing texts) nid).take k) :
    bestMatch sim (sync_items_from_summary sim existing texts nid now) m'
        (texts.get ⟨k, hk⟩)
      = some ((partnerId (computeMatches sim existing texts) nid).get ⟨k, hkp⟩) := by
  have hka : k < (computeMatches sim existing texts).length := by
    rw [computeMatches_length]; exact hk
  have hids : (existing.map CLItem.id).Nodup :=
    (List.pairwise_map.mpr hsort).imp Nat.ne_of_lt
  have hpidsnd : (partnerId (computeMatches sim existing texts) nid).Nodup := by
    refine partnerId_nodup _ nid (somes_nodup sim existing texts) ?_
    intro i hi
    obtain ⟨o, ho, hoe⟩ := List.mem_filterMap.mp hi
    obtain ⟨x, hx, hxi⟩ := matched_id_exists sim existing texts i (hoe ▸ ho)
    exact hxi ▸ hbound x hx
  obtain ⟨P, hPs1, hPid, hPtext⟩ :=
    run1_partner sim existing texts nid now hsort k hk hka hkp
  have hle : ∀ item : CLItem, simR sim (texts.get ⟨k, hk⟩) item ≤ 1 :=
    fun item => h2 _ _
  have hPavail : P.id ∉ m' := by
    rw [hm', hPid]
    exact nodup_get_not_mem_take _ hpidsnd k hkp
  have hs1sorted := sync_sorted sim existing texts nid now hsort hbound
  have hs1ids :
      ((sync_items_from_summary sim existing texts nid now).map CLItem.id).Nodup :=
    (List.pairwise_map.mpr hs1sorted).imp Nat.ne_of_lt
  obtain ⟨l1, l2, hsplit⟩ := List.append_of_mem hPs1
  have hrP : simR sim (texts.get ⟨k, hk⟩) P = 1 := by
    unfold simR
    rw [hPtext]
    exact h1 _
  have hpre : ∀ z ∈ l1, z.id ∉ m' → simR sim (texts.get ⟨k, hk⟩) z < 1 := by
    intro z hzl1 hzav
    rcases lt_or_eq_of_le (hle z) with hlt | hr1
    · exact hlt
    · exfalso
      have hlow : strLower z.item_text = strLower (texts.get ⟨k, hk⟩) := h3 _ _ hr1
      have hz_s1 : z ∈ sync_items_from_summary sim existing texts nid now := by
        rw [hsplit]; exact List.mem_append_left _ hzl1
      have hzltP : z.id < P.id := by
        have hp := List.pairwise_append.mp (by rw [← hsplit]; exact hs1sorted)
        exact hp.2.2 z hzl1 P (List.mem_cons_self P l2)
      by_cases hzp : z.id ∈ partnerId (computeMatches sim existing texts) nid
      · obtain ⟨⟨k2, hk2⟩, hget2⟩ := List.mem_iff_get.mp hzp
        have hk2a : k2 < (computeMatches sim existing texts).length := by
          rw [← partnerId_length _ nid]; exact hk2
        have hk2t : k2 < texts.length := by
          rw [← computeMatches_length sim existing texts]; exact hk2a
        obtain ⟨P2, hP2s1, hP2id, hP2text⟩ :=
          run1_partner sim existing texts nid now hsort k2 hk2t hk2a hk2
        have hzP2 : z = P2 :=
          List.inj_on_of_nodup_map hs1ids hz_s1 hP2s1 (hget2 ▸ hP2id).symm
        have hlow2 : strLower (texts.get ⟨k2, hk2t⟩) = strLower (texts.get ⟨k, hk⟩) := by
          rw [← hP2text, ← hzP2]
          exact hlow
        have hk2k : k2 = k := htexts k2 k hk2t hk hlow2
        subst hk2k
        have hzP : z.id = P.id := by
          rw [hPid, ← hget2]
        exact absurd (hzP ▸ hzltP) (lt_irrefl P.id)
      · obtain ⟨hzex, -, hznm⟩ :=
          run1_extra_char sim existing texts nid now z hz_s1 hzp
        have hzav1 : z.id ∉
            ((computeMatches sim existing texts).take k).filterMap id ++ ([] : List Nat) := by
          intro hmem
          apply hznm
          rcases List.mem_append.mp hmem with hmem | hmem
          · obtain ⟨o, ho, hoe⟩ := List.mem_filterMap.mp hmem
            exact hoe ▸ List.mem_of_mem_take ho
          · exact absurd hmem (List.not_mem_nil _)
        have hrz : simR sim (texts.get ⟨k, hk⟩) z = 1 := by
          unfold simR
          rw [hlow]
          exact h1 _
        cases hgetk : (computeMatches sim existing texts).get ⟨k, hka⟩ with
        | some i =>
          have hPi : P.id = i := by
            rw [hPid, partnerId_get_some _ nid k hka hkp i hgetk]
          have hsome : some i ∈ computeMatches sim existing texts := by
            rw [← hgetk]; exact List.get_mem _ _ _
          obtain ⟨x, hxex, hxi⟩ := matched_id_exists sim existing texts i hsome
          have hbm1 : bestMatch sim existing
              (((computeMatches sim existing texts).take k).filterMap id ++ [])
              (texts.get ⟨k, hk⟩) = some i := by
            have h0 : (computeMatchesAux sim existing texts []).get ⟨k, hka⟩ = some i :=
              hgetk
            rw [cmAux_get sim existing texts [] k hk hka] at h0
            exact h0
          obtain ⟨e1, e2, hesplit⟩ := List.append_of_mem hzex
          obtain ⟨y, hy1, -, -, hybm⟩ := bestMatch_exact_earliest sim
            (((computeMatches sim existing texts).take k).filterMap id ++ [])
            (texts.get ⟨k, hk⟩) hle e1 e2 z hzav1 hrz
          have hyid : y.id = i := by
            rw [← hesplit] at hybm
            exact Option.some.inj (hybm.symm.trans hbm1)
          have hyex : y ∈ existing := by
            rw [hesplit]
            rcases hy1 with h | h
            · exact List.mem_append_left _ h
            · exact h ▸ List.mem_append_right _ (List.mem_cons_self _ _)
          have hynz : y ≠ z := by
            intro h
            apply hzp
            rw [← h, hyid, ← partnerId_get_some _ nid k hka hkp i hgetk]
            exact List.get_mem _ _ _
          have hy_e1 : y ∈ e1 := by
            rcases hy1 with h | h
            · exact h
            · exact absurd h hynz
          have hyz : y.id < z.id := by
            have hp := List.pairwise_append.mp (by rw [← hesplit]; exact hsort)
            exact hp.2.2 y hy_e1 z (List.mem_cons_self z e2)
          have hzy : z.id < y.id := by
            rw [hyid, ← hPi]
            exact hzltP
          exact absurd (lt_trans hyz hzy) (lt_irrefl y.id)
        | none =>
          have hbm1 : bestMatch sim existing
              (((computeMatches sim existing texts).take k).filterMap id ++ [])
              (texts.get ⟨k, hk⟩) = none := by
            have h0 : (computeMatchesAux sim existing texts []).get ⟨k, hka⟩ = none :=
              hgetk
            rw [cmAux_get sim existing texts [] k hk hka] at h0
            exact h0
          have hthr : matchThreshold ≤ simR sim (texts.get ⟨k, hk⟩) z := by
            rw [hrz]; decide
          have hS := bestMatch_isSome sim existing
            (((computeMatches sim existing texts).take k).filterMap id ++ [])
            (texts.get ⟨k, hk⟩) z hzex hzav1 hthr
          rw [hbm1] at hS
          exact absurd hS (by simp)
  have hfinal := bestMatch_eq_first_exact sim m' (texts.get ⟨k, hk⟩) hle l1 l2 P
    hPavail hrP hpre
  rw [hsplit, hfinal, hPid]

/-- Driver: if at every step the greedy fold is forced to return the
expected id, the whole matching loop returns the expected assignment. -/
theorem cmAux_eq_somes (sim : String → String → ℚ) (l : List CLItem) :
    ∀ (ts : List String) (pids : List Nat) (m : List Nat),
      ts.length = pids.length →
      (∀ (k : Nat) (hk : k < ts.length) (hk2 : k < pids.length) (m' : List Nat),
        (∀ x, x ∈ m' ↔ x ∈ m ∨ x ∈ pids.take k) →
        bestMatch sim l m' (ts.get ⟨k, hk⟩) = some (pids.get ⟨k, hk2⟩)) →
      computeMatchesAux sim l ts m = pids.map some
  | [], [], _, _, _ => rfl
  | [], p :: ps, m, hlen, _ => absurd hlen (by simp)
  | t :: ts, [], m, hlen, _ => absurd hlen (by simp)
  | t :: ts, p :: ps, m, hlen, hstep => by
    have h0 : bestMatch sim l m t = some p := by
      have := hstep 0 (by simp) (by simp) m (fun x => by simp)
      simpa using this
    have hcons : computeMatchesAux sim l (t :: ts) m
        = some p :: computeMatchesAux sim l ts (p :: m) := by
      rw [computeMatchesAux, h0]
    rw [hcons, List.map_cons]
    congr 1
    refine cmAux_eq_somes sim l ts ps (p :: m) (by simpa using hlen) ?_
    intro k hk hk2 m' hm'
    refine hstep (k + 1) (Nat.succ_lt_succ hk) (Nat.succ_lt_succ hk2) m' ?_
    intro x
    rw [hm' x]
    simp only [List.take_succ_cons, List.mem_cons]
    constructor
    · rintro ((rfl | h) | h)
      · exact Or.inr (Or.inl rfl)
      · exact Or.inl h
      · exact Or.inr (Or.inr h)
    · rintro (h | (rfl | h))
      · exact Or.inl (Or.inr h)
      · exact Or.inl (Or.inl rfl)
      · exact Or.inr h

/-- C8 (amended): `sync_items_from_summary` is idempotent under
repeated identical input whenever the new texts are pairwise distinct
case-insensitively (which the summarizer's aggregation guarantees: it
deduplicates case-insensitively before calling the reconciler).  The
ratio hypotheses hold for difflib's ratio: it is `1` on equal strings,
never exceeds `1`, and equals `1` only on equal strings; `hsort` and
`hbound` are the database invariants (rows ordered by distinct primary
keys, autoincrement id past every existing id).  The second run then
re-matches every new text to the item the first run matched or
created, overwrites its text with the identical string, adds nothing
and deletes nothing. -/
theorem sync_items_idempotent_of_distinct_lowers
    (sim : String → String → ℚ) (existing : List CLItem) (texts : List String)
    (nid now nid2 now2 : Nat)
    (h1 : ∀ s, sim s s = 1) (h2 : ∀ a b, sim a b ≤ 1)
    (h3 : ∀ a b, sim a b = 1 → a = b)
    (hsort : existing.Pairwise (fun a b => a.id < b.id))
    (hbound : ∀ x ∈ existing, x.id < nid)
    (htexts : ∀ (k1 k2 : Nat) (hk1 : k1 < texts.length) (hk2 : k2 < texts.length),
      strLower (texts.get ⟨k1, hk1⟩) = strLower (texts.get ⟨k2, hk2⟩) → k1 = k2) :
    sync_items_from_summary sim
        (sync_items_from_summary sim existing texts nid now) texts nid2 now2
      = sync_items_from_summary sim existing texts nid now := by
  have hpidsnd : (partnerId (computeMatches sim existing texts) nid).Nodup := by
    refine partnerId_nodup _ nid (somes_nodup sim existing texts) ?_
    intro i hi
    obtain ⟨o, ho, hoe⟩ := List.mem_filterMap.mp hi
    obtain ⟨x, hx, hxi⟩ := matched_id_exists sim existing texts i (hoe ▸ ho)
    exact hxi ▸ hbound x hx
  have hs1sorted := sync_sorted sim existing texts nid now hsort hbound
  have hs1ids :
      ((sync_items_from_summary sim existing texts nid now).map CLItem.id).Nodup :=
    (List.pairwise_map.mpr hs1sorted).imp Nat.ne_of_lt
  have hasgn2 : computeMatches sim
      (sync_items_from_summary sim existing texts nid now) texts
      = (partnerId (computeMatches sim existing texts) nid).map some := by
    refine cmAux_eq_somes sim _ texts _ [] ?_ ?_
    · rw [partnerId_length, computeMatches_length]
    · intro k hk hk2 m' hm'
      refine run2_step sim existing texts nid now h1 h2 h3 hsort hbound htexts
        k hk hk2 m' ?_
      intro x
      rw [hm' x]
      simp
  have happly : ∀ y ∈ sync_items_from_summary sim existing texts nid now,
      applyText texts ((partnerId (computeMatches sim existing texts) nid).map some) y
        = y := by
    intro y hy
    by_cases hyp : y.id ∈ partnerId (computeMatches sim existing texts) nid
    · obtain ⟨⟨k2, hk2⟩, hget2⟩ := List.mem_iff_get.mp hyp
      have hk2a : k2 < (computeMatches sim existing texts).length := by
        rw [← partnerId_length _ nid]; exact hk2
      have hk2t : k2 < texts.length := by
        rw [← computeMatches_length sim existing texts]; exact hk2a
      obtain ⟨P2, hP2s1, hP2id, hP2text⟩ :=
        run1_partner sim existing texts nid now hsort k2 hk2t hk2a hk2
      have hyP2 : y = P2 :=
        List.inj_on_of_nodup_map hs1ids hy hP2s1 (hget2 ▸ hP2id).symm
      have hk2m : k2 < ((partnerId (computeMatches sim existing texts) nid).map some).length := by
        rw [List.length_map]; exact hk2
      have hassigned : assignedText texts
          ((partnerId (computeMatches sim existing texts) nid).map some) y.id
          = some (texts.get ⟨k2, hk2t⟩) := by
        refine assignedText_eq texts _ y.id k2 hk2t hk2m ?_ ?_
        · rw [List.get_map]
          exact congrArg some hget2
        · intro k3 h3 hg3
          rw [List.get_map] at hg3
          have hp3 : (partnerId (computeMatches sim existing texts) nid).get
              ⟨k3, by rw [← List.length_map _ some]; exact h3⟩ = y.id :=
            Option.some.inj hg3
          have hinj : (⟨k3, by rw [← List.length_map _ some]; exact h3⟩ :
              Fin (partnerId (computeMatches sim existing texts) nid).length)
              = ⟨k2, hk2⟩ :=
            List.nodup_iff_injective_get.mp hpidsnd (hp3.trans hget2.symm)
          exact congrArg Fin.val hinj
      unfold applyText
      rw [hassigned]
      have htext : texts.get ⟨k2, hk2t⟩ = y.item_text := by
        rw [hyP2, hP2text]
      rw [htext]
    · have hnone : assignedText texts
          ((partnerId (computeMatches sim existing texts) nid).map some) y.id
          = none := by
        refine assignedText_notmem _ _ _ ?_
        intro hmem
        obtain ⟨p, hp, hpe⟩ := List.mem_map.mp hmem
        exact hyp ((Option.some.inj hpe) ▸ hp)
      unfold applyText
      rw [hnone]
  have hkeep : ∀ y ∈ sync_items_from_summary sim existing texts nid now,
      keepItem ((partnerId (computeMatches sim existing texts) nid).map some) y
        = true := by
    intro y hy
    cases hchk : y.is_checked with
    | true =>
      unfold keepItem
      simp [hchk]
    | false =>
      refine keepItem_true_of_mem _ _ ?_
      exact List.mem_map_of_mem some
        (run1_unchecked_is_partner sim existing texts nid now y hy hchk)
  have hmap : List.map
      (applyText texts ((partnerId (computeMatches sim existing texts) nid).map some))
      (sync_items_from_summary sim existing texts nid now)
      = sync_items_from_summary sim existing texts nid now := by
    have hcongr := (List.map_congr_left (fun a ha => happly a ha) :
      List.map
        (applyText texts ((partnerId (computeMatches sim existing texts) nid).map some))
        (sync_items_from_summary sim existing texts nid now)
      = List.map id (sync_items_from_summary sim existing texts nid now))
    rw [hcongr, List.map_id]
  have hunfold : sync_items_from_summary sim
      (sync_items_from_summary sim existing texts nid now) texts nid2 now2
      = (((sync_items_from_summary sim existing texts nid now).map
          (applyText texts (computeMatches sim
            (sync_items_from_summary sim existing texts nid now) texts))).filter
          (keepItem (computeMatches sim
            (sync_items_from_summary sim existing texts nid now) texts)))
        ++ newItems (texts.zip (computeMatches sim
            (sync_items_from_summary sim existing texts nid now) texts)) nid2 now2 := rfl
  rw [hunfold, hasgn2, newItems_all_some, List.append_nil, hmap,
    List.filter_eq_self.mpr hkeep]

/-- Concrete scenario for the amended C8 theorem: the witness ratio is
`1` on equal strings and `0` otherwise; one checked and one unchecked
item, two case-insensitively distinct texts. -/
theorem sync_items_idempotent_of_distinct_lowers_witness :
    sync_items_from_summary (fun a b => if a = b then 1 else 0)
        (sync_items_from_summary (fun a b => if a = b then 1 else 0)
          [⟨1, "pay the fee", true, some 4, none, 0⟩,
           ⟨2, "sign the form", false, none, none, 0⟩]
          ["pay the fee", "call the office"] 3 8) ["pay the fee", "call the office"] 5 9
      = sync_items_from_summary (fun a b => if a = b then 1 else 0)
          [⟨1, "pay the fee", true, some 4, none, 0⟩,
           ⟨2, "sign the form", false, none, none, 0⟩]
          ["pay the fee", "call the office"] 3 8 :=
  sync_items_idempotent_of_distinct_lowers (fun a b => if a = b then 1 else 0)
    [⟨1, "pay the fee", true, some 4, none, 0⟩,
     ⟨2, "sign the form", false, none, none, 0⟩]
    ["pay the fee", "call the office"] 3 8 5 9
    (fun s => by simp)
    (fun a b => by by_cases h : a = b <;> simp [h])
    (fun a b h => by by_cases hab : a = b; exact hab; simp [hab] at h)
    (by decide) (by decide)
    (by
      intro k1 k2 hk1 hk2 h
      simp only [List.length_cons, List.length_nil] at hk1 hk2
      interval_cases k1 <;> interval_cases k2 <;> first
        | rfl
        | (simp only [List.get] at h; exact absurd h (by decide)))

/-! ## Deduplicating store writer — src/src/services/sync_service.py

The persisted store: `CommunicationItem` and `Attachment` rows
(src/src/models/communication.py).  Source-specific nullable columns
are `Option`s; `gmail_label_ids` is stored JSON-encoded in the
database and modeled as the decoded list; timestamps are `Nat`
instants. -/

structure StoredComm where
  id : Nat
  timestamp : Nat
  title : String
  sender : String
  body_plain : Option String := none
  body_html : Option String := none
  source : String
  source_id : String
  gmail_thread_id : Option String := none
  gmail_label_ids : Option (List String) := none
  gmail_snippet : Option String := none
  bw_student_name : Option String := none
  bw_room : Option String := none
  bw_action_type : Option String := none
  bw_details : Option String := none
  deriving DecidableEq

structure StoredAtt where
  id : Nat
  communication_id : Nat
  filename : String
  mime_type : String
  remote_url : String
  local_path : Option String := none
  is_downloaded : Bool := false
  extracted_text : Option String := none
  deriving DecidableEq

structure Store where
  items : List StoredComm
  atts : List StoredAtt
  nextItemId : Nat
  nextAttId : Nat
  deriving DecidableEq

def emptyStore : Store := ⟨[], [], 1, 1⟩

/-- `_EXT_MIME_MAP` (sync_service.py lines 24-33). -/
def extMimeMap : List (String × String) :=
  [(".pdf", "application/pdf"), (".jpg", "image/jpeg"), (".jpeg", "image/jpeg"),
   (".png", "image/png"), (".gif", "image/gif"), (".webp", "image/webp"),
   (".doc", "application/msword"),
   (".docx", "application/vnd.openxmlformats-officedocument.wordprocessingml.document")]

/-- `urlparse(url).path`: strip the fragment, the query, and (when a
scheme is present) the scheme and network location.  A close model of
the standard parser, adequate here: no claim depends on URL corner
cases. -/
def urlPath (u : String) : String :=
  let noFrag := (u.splitOn "#").headD ""
  let noQuery := (noFrag.splitOn "?").headD ""
  match noQuery.splitOn "://" with
  | _ :: rest :: _ =>
    match rest.splitOn "/" with
    | _ :: pathParts => "/" ++ String.intercalate "/" pathParts
    | [] => ""
  | _ => noQuery

/-- `os.path.splitext(p)[1]`: the suffix of the basename from its last
dot (empty when the basename has no dot). -/
def splitextSuffix (p : String) : String :=
  let base := ((p.splitOn "/").getLastD "")
  let parts := base.splitOn "."
  if parts.length ≤ 1 then "" else "." ++ (parts.getLastD "")

/-- Extension-table lookup with the writer's generic image default
(sync_service.py lines 376-377 and 389-390). -/
def mimeFromUrl (url : String) : String :=
  match extMimeMap.find? (fun p => p.1 = strLower (splitextSuffix (urlPath url))) with
  | some p => p.2
  | none => "image/jpeg"

def hexVal (c : Char) : Option Nat :=
  if '0' ≤ c ∧ c ≤ '9' then some (c.toNat - '0'.toNat)
  else if 'a' ≤ c ∧ c ≤ 'f' then some (c.toNat - 'a'.toNat + 10)
  else if 'A' ≤ c ∧ c ≤ 'F' then some (c.toNat - 'A'.toNat + 10)
  else none

/-- `urllib.parse.unquote` at the byte-for-character level (ASCII
percent escapes; adequate for the filenames involved). -/
def percentDecode : List Char → List Char
  | [] => []
  | '%' :: a :: b :: rest =>
    match hexVal a, hexVal b with
    | some x, some y => Char.ofNat (16 * x + y) :: percentDecode rest
    | _, _ => '%' :: percentDecode (a :: b :: rest)
  | c :: rest => c :: percentDecode rest

/-- The parsed Brightwheel record handed to `_store_bw_item`
(`parse_activity` / `parse_message` output).  `timestamp` is the
result of `parse_timestamp`: `some` instant, or `none` when parsing
raised (line 348-350 then substitutes `datetime.now()`). -/
structure BWParsed where
  source_id : String
  timestamp : Option Nat
  title : String
  sender : String
  body_plain : String
  student_name : String
  room : String
  action_type : String
  details : String
  attachment_list : List (String × String × String) := []
  photos : List String := []
  deriving DecidableEq

/-- Attachment rows built from a structured `attachment_list`
(url, filename, content_type) — sync_service.py lines 368-385. -/
def bwAttsFromList : List (String × String × String) → Nat → Nat → List StoredAtt
  | [], _, _ => []
  | (url, filename, content_type) :: rest, commId, attId =>
    let mime := if content_type ≠ "" then content_type else mimeFromUrl url
    ⟨attId, commId, filename, mime, url, none, false, none⟩
      :: bwAttsFromList rest commId (attId + 1)

/-- Attachment rows from the legacy plain `photos` list —
sync_service.py lines 386-398. -/
def bwAttsFromPhotos : List String → Nat → Nat → List StoredAtt
  | [], _, _ => []
  | url :: rest, commId, attId =>
    let base := String.mk (percentDecode (((urlPath url).splitOn "/").getLastD "").data)
    let filename := if base = "" then "photo.jpg" else base
    ⟨attId, commId, filename, mimeFromUrl url, url, none, false, none⟩
      :: bwAttsFromPhotos rest commId (attId + 1)

/-- `SyncService._store_bw_item` (sync_service.py lines 337-400):
refuse degenerate ids, skip on an existing `source_id`, otherwise
insert the item plus its attachments and report one new row. -/
def store_bw_item (store : Store) (parsed : BWParsed) (now : Nat) : Store × Nat :=
  if parsed.source_id = "" ∨ parsed.source_id = "bw_act_" ∨ parsed.source_id = "bw_msg_"
  then (store, 0)
  else if store.items.any (fun it => it.source_id = parsed.source_id) then (store, 0)
  else
    let ts := parsed.timestamp.getD now
    let item : StoredComm :=
      { id := store.nextItemId, timestamp := ts, title := parsed.title,
        sender := parsed.sender, body_plain := some parsed.body_plain,
        source := "brightwheel", source_id := parsed.source_id,
        bw_student_name := some parsed.student_name, bw_room := some parsed.room,
        bw_action_type := some parsed.action_type, bw_details := some parsed.details }
    let newAtts :=
      if parsed.attachment_list ≠ [] then
        bwAttsFromList parsed.attachment_list store.nextItemId store.nextAttId
      else
        bwAttsFromPhotos parsed.photos store.nextItemId store.nextAttId
    (⟨store.items ++ [item], store.atts ++ newAtts,
      store.nextItemId + 1, store.nextAttId + newAtts.length⟩, 1)

/-- A Gmail message as flattened by `GmailService.parse_message`;
attachments are (attachment_id, filename, mime_type). -/
structure GmailParsed where
  message_id : String
  thread_id : String
  timestamp : Nat
  subject : String
  sender : String
  body_plain : String
  body_html : String
  label_ids : List String
  snippet : String
  attachments : List (String × String × String) := []
  deriving DecidableEq

def gmailAtts : List (String × String × String) → Nat → Nat → List StoredAtt
  | [], _, _ => []
  | (attachment_id, filename, mime_type) :: rest, commId, attId =>
    ⟨attId, commId, filename, mime_type, attachment_id, none, false, none⟩
      :: gmailAtts rest commId (attId + 1)

/-- The per-message store step inlined in `sync_gmail`
(sync_service.py lines 67-102): build `source_id = "gmail_" + id`,
skip when a row with that `source_id` exists, otherwise insert the
item and its attachments and count it as new.  Note: unlike
`_store_bw_item`, there is no degenerate-id guard here. -/
def store_gmail_msg (store : Store) (parsed : GmailParsed) : Store × Nat :=
  let source_id := "gmail_" ++ parsed.message_id
  if store.items.any (fun it => it.source_id = source_id) then (store, 0)
  else
    let item : StoredComm :=
      { id := store.nextItemId, timestamp := parsed.timestamp,
        title := parsed.subject, sender := parsed.sender,
        body_plain := some parsed.body_plain, body_html := some parsed.body_html,
        source := "gmail", source_id := source_id,
        gmail_thread_id := some parsed.thread_id,
        gmail_label_ids := some parsed.label_ids,
        gmail_snippet := some parsed.snippet }
    let newAtts := gmailAtts parsed.attachments store.nextItemId store.nextAttId
    (⟨store.items ++ [item], store.atts ++ newAtts,
      store.nextItemId + 1, store.nextAttId + newAtts.length⟩, 1)

/-- Number of stored rows carrying a given `source_id` (the UNIQUE
dedup key). -/
def countRows (store : Store) (sid : String) : Nat :=
  (store.items.filter (fun it => it.source_id = sid)).length

/-! ### Claims C2 and C6 -/

theorem countRows_pos_iff_any (s : Store) (sid : String) :
    (s.items.any (fun it => it.source_id = sid)) = true ↔ 0 < countRows s sid := by
  unfold countRows
  rw [List.any_eq_true, List.length_pos]
  constructor
  · rintro ⟨x, hx, hpx⟩
    exact List.ne_nil_of_mem (List.mem_filter.mpr ⟨hx, hpx⟩)
  · intro hne
    obtain ⟨x, hx⟩ := List.exists_mem_of_ne_nil _ hne
    obtain ⟨hxs, hpx⟩ := List.mem_filter.mp hx
    exact ⟨x, hxs, hpx⟩

/-- C2 counterexample: for a normalized record whose `source_id` is a
bare template prefix, the Dedup Writer refuses both calls, so no row
at all is stored for that `source_id` — not exactly one. -/
theorem store_bw_item_twice_degenerate_counterexample :
    countRows
      (store_bw_item
        (store_bw_item emptyStore
          ⟨"bw_act_", some 5, "t", "s", "b", "n", "r", "a", "d", [], []⟩ 0).1
        ⟨"bw_act_", some 5, "t", "s", "b", "n", "r", "a", "d", [], []⟩ 0).1
      "bw_act_" ≠ 1 := by decide

/-- In the not-found branch, `_store_bw_item` appends exactly one row
carrying the record's `source_id` and reports it as new. -/
theorem store_bw_item_inserts (store : Store) (p : BWParsed) (now : Nat)
    (hvalid : ¬ (p.source_id = "" ∨ p.source_id = "bw_act_" ∨ p.source_id = "bw_msg_"))
    (hex : ¬ (store.items.any (fun it => it.source_id = p.source_id)) = true) :
    ∃ item : StoredComm, item.source_id = p.source_id ∧
      (store_bw_item store p now).1.items = store.items ++ [item] ∧
      (store_bw_item store p now).2 = 1 := by
  unfold store_bw_item
  rw [if_neg hvalid, if_neg hex]
  exact ⟨_, rfl, rfl, rfl⟩

/-- C2 (amended): for every normalized record whose `source_id` is
valid (non-empty and not a bare template prefix), and a store obeying
the UNIQUE constraint, running the Dedup Writer twice with the
identical record yields exactly one stored row for that `source_id`;
the second call finds the existing row, makes no changes, and returns
`0`.  (For records with a degenerate id, both calls store nothing and
return `0`.) -/
theorem store_bw_item_dedup_idempotent (store : Store) (p : BWParsed)
    (now1 now2 : Nat)
    (hvalid : ¬ (p.source_id = "" ∨ p.source_id = "bw_act_" ∨ p.source_id = "bw_msg_"))
    (hcount : countRows store p.source_id ≤ 1) :
    store_bw_item (store_bw_item store p now1).1 p now2
      = ((store_bw_item store p now1).1, 0) ∧
    countRows (store_bw_item store p now1).1 p.source_id = 1 := by
  by_cases hex : store.items.any (fun it => it.source_id = p.source_id)
  · have h1 : store_bw_item store p now1 = (store, 0) := by
      unfold store_bw_item
      rw [if_neg hvalid, if_pos hex]
    rw [h1]
    have hone : countRows store p.source_id = 1 :=
      le_antisymm hcount ((countRows_pos_iff_any store p.source_id).mp hex)
    refine ⟨?_, hone⟩
    unfold store_bw_item
    rw [if_neg hvalid, if_pos hex]
  · have hfil : store.items.filter (fun it => it.source_id = p.source_id) = [] := by
      rw [List.filter_eq_nil]
      intro a ha hpa
      exact hex (List.any_eq_true.mpr ⟨a, ha, hpa⟩)
    obtain ⟨item, hsid, hitems, -⟩ :=
      store_bw_item_inserts store p now1 hvalid hex
    have hany : ((store_bw_item store p now1).1.items.any
        (fun it => it.source_id = p.source_id)) = true := by
      rw [hitems, List.any_eq_true]
      exact ⟨item, List.mem_append_right _ (List.mem_cons_self _ _), by simp [hsid]⟩
    have hone : countRows (store_bw_item store p now1).1 p.source_id = 1 := by
      unfold countRows
      rw [hitems, List.filter_append, hfil, List.nil_append]
      simp [hsid]
    refine ⟨?_, hone⟩
    conv_lhs => rw [store_bw_item]
    rw [if_neg hvalid, if_pos hany]

/-- C6 counterexample: the Gmail writer applies no degenerate-id
guard: a Gmail message whose id is the empty string is stored under
the bare prefix `"gmail_"` and counted as a new item. -/
theorem gmail_store_no_degenerate_guard_counterexample :
    (store_gmail_msg emptyStore ⟨"", "t1", 5, "subj", "from", "bp", "bh", [], "sn", []⟩).2 = 1 ∧
    ((store_gmail_msg emptyStore
        ⟨"", "t1", 5, "subj", "from", "bp", "bh", [], "sn", []⟩).1.items.map
      (fun it => it.source_id)) = ["gmail_"] := by decide

/-- C6 (amended): the degenerate-identifier guard exists in the
Brightwheel store path only: `_store_bw_item` refuses to store any
record whose `source_id` is empty or a bare template prefix — no row
is inserted and the record is not counted as new.  The Gmail and
WhatsApp writers perform only the duplicate check. -/
theorem store_bw_item_refuses_degenerate (store : Store) (p : BWParsed) (now : Nat)
    (h : p.source_id = "" ∨ p.source_id = "bw_act_" ∨ p.source_id = "bw_msg_") :
    store_bw_item store p now = (store, 0) := by
  unfold store_bw_item
  rw [if_pos h]

theorem store_bw_item_refuses_degenerate_witness :
    (("bw_msg_" : String) = "" ∨ ("bw_msg_" : String) = "bw_act_" ∨
      ("bw_msg_" : String) = "bw_msg_") ∧
    store_bw_item emptyStore ⟨"bw_msg_", none, "t", "s", "b", "n", "r", "a", "d", [], []⟩ 3
      = (emptyStore, 0) :=
  ⟨by decide,
    store_bw_item_refuses_degenerate emptyStore
      ⟨"bw_msg_", none, "t", "s", "b", "n", "r", "a", "d", [], []⟩ 3 (by decide)⟩

theorem store_bw_item_dedup_idempotent_witness :
    (¬ (("bw_act_7" : String) = "" ∨ ("bw_act_7" : String) = "bw_act_" ∨
        ("bw_act_7" : String) = "bw_msg_") ∧
      countRows emptyStore "bw_act_7" ≤ 1) ∧
    (store_bw_item
        (store_bw_item emptyStore
          ⟨"bw_act_7", some 5, "t", "s", "b", "n", "r", "a", "d", [], []⟩ 1).1
        ⟨"bw_act_7", some 5, "t", "s", "b", "n", "r", "a", "d", [], []⟩ 2
      = ((store_bw_item emptyStore
          ⟨"bw_act_7", some 5, "t", "s", "b", "n", "r", "a", "d", [], []⟩ 1).1, 0) ∧
    countRows
        (store_bw_item emptyStore
          ⟨"bw_act_7", some 5, "t", "s", "b", "n", "r", "a", "d", [], []⟩ 1).1
        "bw_act_7" = 1) :=
  ⟨⟨by decide, by decide⟩,
    store_bw_item_dedup_idempotent emptyStore
      ⟨"bw_act_7", some 5, "t", "s", "b", "n", "r", "a", "d", [], []⟩ 1 2
      (by decide) (by decide)⟩

/-! ## Summarizer — src/src/services/summary_service.py

`_generate_day_summary` (lines 81-177) as a per-day state transition.
The LLM call plus response parsing (lines 113-155, modeled separately
for claim C4) are abstracted into the `parsed` fields the code would
store; the Boolean result records whether the LLM was called at all.
`source_item_ids` is stored JSON-encoded; since `json.dumps` is
injective on sorted integer lists, the stored string is modeled as the
decoded list and the code's string comparison as list equality. -/

structure CommLite where
  id : Nat
  timestamp : Nat
  deriving DecidableEq

structure SummaryFields where
  key_dates : List String
  deadlines : List String
  curriculum_updates : List String
  action_items : List String
  raw_summary : String
  deriving DecidableEq

structure DailySummaryRow where
  date : String
  key_dates : List String
  deadlines : List String
  curriculum_updates : List String
  action_items : List String
  raw_summary : String
  source_item_ids : List Nat
  generated_at : Nat
  deriving DecidableEq

/-- The day query (lines 89-95): all communication items whose
timestamp falls within `[dayStart, dayEnd]`.  (The query orders by
timestamp; the order is irrelevant here because only the sorted id
set is compared.) -/
def itemsForDay (all : List CommLite) (dayStart dayEnd : Nat) : List CommLite :=
  all.filter (fun it => dayStart ≤ it.timestamp ∧ it.timestamp ≤ dayEnd)

/-- Python's `sorted` on integer ids (insertion sort). -/
def insertSorted (n : Nat) : List Nat → List Nat
  | [] => [n]
  | m :: rest => if n ≤ m then n :: m :: rest else m :: insertSorted n rest

def sortNats : List Nat → List Nat
  | [] => []
  | n :: rest => insertSorted n (sortNats rest)

/-- `SummaryService._generate_day_summary`: empty day returns with no
row change and no LLM call; a day whose current sorted id set equals
the stored one is skipped unless forced; otherwise the LLM result is
stored (update in place, refreshing `generated_at`, or fresh insert).
Returns the day's stored row afterwards and whether the LLM was
called. -/
def generate_day_summary (all : List CommLite) (dayStart dayEnd : Nat)
    (dateStr : String) (existing : Option DailySummaryRow) (force : Bool)
    (parsed : SummaryFields) (now : Nat) : Option DailySummaryRow × Bool :=
  let items := itemsForDay all dayStart dayEnd
  if items.isEmpty then (existing, false)
  else
    let ids := sortNats (items.map (fun it => it.id))
    match existing with
    | some s =>
      if force = false ∧ s.source_item_ids = ids then (some s, false)
      else
        (some { s with
                key_dates := parsed.key_dates,
                deadlines := parsed.deadlines,
                curriculum_updates := parsed.curriculum_updates,
                action_items := parsed.action_items,
                raw_summary := parsed.raw_summary,
                source_item_ids := ids,
                generated_at := now }, true)
    | none =>
      (some ⟨dateStr, parsed.key_dates, parsed.deadlines, parsed.curriculum_updates,
        parsed.action_items, parsed.raw_summary, ids, now⟩, true)

/-- C3: for a fixed calendar day with at least one communication item
and no stored summary yet, two Summarizer passes with `force = false`
and an unchanged item-id set make exactly one LLM call in total: the
first pass calls the LLM, the second compares the stored ids with the
current sorted id set, finds them equal, skips, and leaves the stored
row (its `generated_at` included) unchanged. -/
theorem summary_incremental_skip (all1 all2 : List CommLite) (ds de : Nat)
    (dateStr : String) (parsed1 parsed2 : SummaryFields) (now1 now2 : Nat)
    (hne : itemsForDay all1 ds de ≠ [])
    (hids : sortNats ((itemsForDay all2 ds de).map (fun it => it.id))
          = sortNats ((itemsForDay all1 ds de).map (fun it => it.id))) :
    (generate_day_summary all1 ds de dateStr none false parsed1 now1).2 = true ∧
    generate_day_summary all2 ds de dateStr
        (generate_day_summary all1 ds de dateStr none false parsed1 now1).1
        false parsed2 now2
      = ((generate_day_summary all1 ds de dateStr none false parsed1 now1).1,
          false) := by
  have hne2 : (itemsForDay all1 ds de).isEmpty = false := by
    cases h : itemsForDay all1 ds de with
    | nil => exact absurd h hne
    | cons a l => rfl
  have h1 : generate_day_summary all1 ds de dateStr none false parsed1 now1
      = (some ⟨dateStr, parsed1.key_dates, parsed1.deadlines,
          parsed1.curriculum_updates, parsed1.action_items, parsed1.raw_summary,
          sortNats ((itemsForDay all1 ds de).map (fun it => it.id)), now1⟩, true) := by
    unfold generate_day_summary
    simp [hne2]
  refine ⟨by rw [h1], ?_⟩
  rw [h1]
  unfold generate_day_summary
  cases h2 : (itemsForDay all2 ds de).isEmpty with
  | true => simp [h2]
  | false => simp [h2, hids]

theorem summary_incremental_skip_witness :
    (itemsForDay [⟨1, 5⟩] 0 9 ≠ [] ∧
      sortNats ((itemsForDay [⟨1, 5⟩] 0 9).map (fun it => it.id))
        = sortNats ((itemsForDay [⟨1, 5⟩] 0 9).map (fun it => it.id))) ∧
    ((generate_day_summary [⟨1, 5⟩] 0 9 "2026-01-01" none false
        ⟨["kd"], [], [], ["ai"], "ov"⟩ 100).2 = true ∧
      generate_day_summary [⟨1, 5⟩] 0 9 "2026-01-01"
          (generate_day_summary [⟨1, 5⟩] 0 9 "2026-01-01" none false
            ⟨["kd"], [], [], ["ai"], "ov"⟩ 100).1 false
          ⟨["kd2"], [], [], [], "ov2"⟩ 200
        = ((generate_day_summary [⟨1, 5⟩] 0 9 "2026-01-01" none false
            ⟨["kd"], [], [], ["ai"], "ov"⟩ 100).1, false)) :=
  ⟨⟨by decide, by decide⟩,
    summary_incremental_skip [⟨1, 5⟩] [⟨1, 5⟩] 0 9 "2026-01-01"
      ⟨["kd"], [], [], ["ai"], "ov"⟩ ⟨["kd2"], [], [], [], "ov2"⟩ 100 200
      (by decide) (by decide)⟩

/-- C7: for a calendar day with zero communication items in range,
`_generate_day_summary` creates no DailySummary row and makes no LLM
call, regardless of the `force` flag: the stored state for the day is
returned unchanged (in particular `none` stays `none`). -/
theorem summary_empty_day_no_row_no_call (all : List CommLite) (ds de : Nat)
    (dateStr : String) (existing : Option DailySummaryRow) (force : Bool)
    (parsed : SummaryFields) (now : Nat)
    (hempty : itemsForDay all ds de = []) :
    generate_day_summary all ds de dateStr existing force parsed now
      = (existing, false) := by
  unfold generate_day_summary
  rw [hempty]
  rfl

theorem summary_empty_day_no_row_no_call_witness :
    itemsForDay [⟨1, 50⟩] 0 9 = [] ∧
    generate_day_summary [⟨1, 50⟩] 0 9 "2026-01-01" none true
        ⟨[], [], [], [], "x"⟩ 100
      = (none, false) :=
  ⟨by decide,
    summary_empty_day_no_row_no_call [⟨1, 50⟩] 0 9 "2026-01-01" none true
      ⟨[], [], [], [], "x"⟩ 100 (by decide)⟩

/-! ## LLM response parsing — summary_service.py lines 122-144

`json.loads` is the standard library's JSON decoder; the theorems about
the fallback chain are parameterized over an arbitrary decoder
`jp : String → Option JVal` (`none` = `JSONDecodeError`), and the
concrete instances use `miniJsonParse` below, a direct recursive-descent
implementation of the JSON grammar (strings with the standard escapes,
numbers, arrays, objects, literals; `\u` escapes are decoded as single
code units). -/

inductive JVal where
  | null : JVal
  | bool (b : Bool) : JVal
  | num (digits : List Char) : JVal
  | str (s : String) : JVal
  | arr (xs : List JVal) : JVal
  | obj (kvs : List (String × JVal)) : JVal

def skipWs : List Char → List Char
  | c :: rest =>
    if c = ' ' ∨ c = '\t' ∨ c = '\n' ∨ c = '\r' then skipWs rest else c :: rest
  | [] => []

/-- JSON string-literal body (after the opening quote): returns the
decoded characters and the remaining input. -/
def pStr : List Char → Option (List Char × List Char)
  | [] => none
  | '"' :: rest => some ([], rest)
  | '\\' :: 'u' :: a :: b :: c :: d :: rest =>
    match hexVal a, hexVal b, hexVal c, hexVal d with
    | some x1, some x2, some x3, some x4 =>
      match pStr rest with
      | some (cs, r) =>
        some (Char.ofNat (((x1 * 16 + x2) * 16 + x3) * 16 + x4) :: cs, r)
      | none => none
    | _, _, _, _ => none
  | '\\' :: e :: rest =>
    let dec : Option Char :=
      if e = '"' then some '"'
      else if e = '\\' then some '\\'
      else if e = '/' then some '/'
      else if e = 'b' then some (Char.ofNat 8)
      else if e = 'f' then some (Char.ofNat 12)
      else if e = 'n' then some '\n'
      else if e = 'r' then some '\r'
      else if e = 't' then some '\t'
      else none
    match dec with
    | some ch =>
      match pStr rest with
      | some (cs, r) => some (ch :: cs, r)
      | none => none
    | none => none
  | c :: rest =>
    if c.toNat < 32 then none
    else
      match pStr rest with
      | some (cs, r) => some (c :: cs, r)
      | none => none

def isDigit (c : Char) : Bool := '0' ≤ c ∧ c ≤ '9'

/-- JSON number, kept as its raw digits: optional minus, integer part
(`0` or nonzero-led digits), optional fraction, optional exponent. -/
def pNum (cs : List Char) : Option (List Char × List Char) :=
  let (sign, cs1) :=
    match cs with
    | '-' :: rest => (['-'], rest)
    | _ => (([] : List Char), cs)
  match cs1 with
  | '0' :: rest => pNumFrac (sign ++ ['0']) rest
  | c :: rest =>
    if isDigit c ∧ c ≠ '0' then
      let digits := rest.takeWhile isDigit
      pNumFrac (sign ++ [c] ++ digits) (rest.dropWhile isDigit)
    else none
  | [] => none
where
  pNumFrac (acc : List Char) (cs : List Char) : Option (List Char × List Char) :=
    let (acc1, cs1) :=
      match cs with
      | '.' :: d :: rest =>
        if isDigit d then
          (acc ++ ['.', d] ++ rest.takeWhile isDigit, rest.dropWhile isDigit)
        else (acc, cs)
      | _ => (acc, cs)
    match cs1 with
    | e :: rest =>
      if e = 'e' ∨ e = 'E' then
        match rest with
        | s :: d :: rest2 =>
          if (s = '+' ∨ s = '-') ∧ isDigit d then
            (some (acc1 ++ [e, s, d] ++ rest2.takeWhile isDigit,
              rest2.dropWhile isDigit))
          else if isDigit s then
            (some (acc1 ++ [e, s] ++ (d :: rest2).takeWhile isDigit,
              (d :: rest2).dropWhile isDigit))
          else none
        | [s] => if isDigit s then some (acc1 ++ [e, s], []) else none
        | [] => none
      else some (acc1, cs1)
    | [] => some (acc1, [])

mutual

def pVal : Nat → List Char → Option (JVal × List Char)
  | 0, _ => none
  | fuel + 1, cs =>
    match skipWs cs with
    | 'n' :: 'u' :: 'l' :: 'l' :: rest => some (.null, rest)
    | 't' :: 'r' :: 'u' :: 'e' :: rest => some (.bool true, rest)
    | 'f' :: 'a' :: 'l' :: 's' :: 'e' :: rest => some (.bool false, rest)
    | '"' :: rest =>
      match pStr rest with
      | some (cs2, r) => some (.str (String.mk cs2), r)
      | none => none
    | '[' :: rest =>
      (match skipWs rest with
      | ']' :: r => some (.arr [], r)
      | _ => match pItems fuel rest with
        | some (xs, r) => some (.arr xs, r)
        | none => none)
    | '{' :: rest =>
      (match skipWs rest with
      | '}' :: r => some (.obj [], r)
      | _ => match pMembers fuel rest with
        | some (kvs, r) => some (.obj kvs, r)
        | none => none)
    | other =>
      match pNum other with
      | some (digits, r) => some (.num digits, r)
      | none => none

def pItems : Nat → List Char → Option (List JVal × List Char)
  | 0, _ => none
  | fuel + 1, cs =>
    match pVal fuel cs with
    | some (v, r) =>
      (match skipWs r with
      | ',' :: r2 =>
        (match pItems fuel r2 with
        | some (xs, r3) => some (v :: xs, r3)
        | none => none)
      | ']' :: r2 => some ([v], r2)
      | _ => none)
    | none => none

def pMembers : Nat → List Char → Option (List (String × JVal) × List Char)
  | 0, _ => none
  | fuel + 1, cs =>
    match skipWs cs with
    | '"' :: rest =>
      (match pStr rest with
      | some (key, r) =>
        (match skipWs r with
        | ':' :: r2 =>
          (match pVal fuel r2 with
          | some (v, r3) =>
            (match skipWs r3 with
            | ',' :: r4 =>
              (match pMembers fuel r4 with
              | some (kvs, r5) => some ((String.mk key, v) :: kvs, r5)
              | none => none)
            | '}' :: r4 => some ([(String.mk key, v)], r4)
            | _ => none)
          | none => none)
        | _ => none)
      | none => none)
    | _ => none

end

/-- `json.loads`: parse one JSON value covering the entire input (up to
trailing whitespace). -/
def miniJsonParse (s : String) : Option JVal :=
  match pVal (s.data.length + 1) s.data with
  | some (j, rest) => if (skipWs rest).isEmpty then some j else none
  | none => none

/-- Index of the first occurrence of a character. -/
def firstIdxOf (c : Char) : List Char → Option Nat
  | [] => none
  | d :: rest => if d = c then some 0 else (firstIdxOf c rest).map (· + 1)

/-- Index of the last occurrence of a character. -/
def lastIdxOf (c : Char) : List Char → Option Nat
  | [] => none
  | d :: rest =>
    match lastIdxOf c rest with
    | some k => some (k + 1)
    | none => if d = c then some 0 else none

/-- `re.search(r'\{.*\}', text, re.DOTALL)` (summary_service.py line
129): the leftmost match of this greedy pattern runs from the first
`{` to the last `}` of the whole text, and exists iff the last `}`
lies strictly after the first `{`. -/
def extractBraced (s : String) : Option String :=
  match firstIdxOf '{' s.data with
  | none => none
  | some i =>
    match lastIdxOf '}' s.data with
    | none => none
    | some j =>
      if i < j then some (String.mk ((s.data.drop i).take (j - i + 1))) else none

/-- The fallback dict built at summary_service.py lines 134-144: empty
category arrays and the raw response text (truncated to 500
characters) as the general overview. -/
def fallbackJson (text : String) : JVal :=
  .obj [("key_dates", .arr []), ("deadlines", .arr []),
        ("curriculum_updates", .arr []), ("action_items", .arr []),
        ("overview", .obj [("nia_whyte_lovable_lambs", .str ""),
                           ("zoe_whyte_hedgehogs", .str ""),
                           ("general_bisc", .str (String.mk (text.data.take 500)))])]

/-- The parse chain of `_generate_day_summary` (lines 122-144):
`json.loads` on the raw response; on failure, brace-extraction and a
second `json.loads` on the extracted span — this second call sits in
no `try` block, so its failure (`none`) propagates as an exception;
only when no brace-delimited span exists is the graceful fallback dict
used. -/
def parse_llm_response (jp : String → Option JVal) (text : String) : Option JVal :=
  match jp text with
  | some j => some j
  | none =>
    match extractBraced text with
    | some sub => jp sub
    | none => some (fallbackJson text)

/-! ### Claim C4 -/

theorem firstIdxOf_spec (c : Char) : ∀ (l : List Char) (i : Nat),
    firstIdxOf c l = some i → ∃ h : i < l.length, l.get ⟨i, h⟩ = c
  | [], i, h => absurd h (by simp [firstIdxOf])
  | d :: rest, i, h => by
    unfold firstIdxOf at h
    by_cases hd : d = c
    · rw [if_pos hd] at h
      obtain rfl : (0 : Nat) = i := Option.some.inj h
      exact ⟨Nat.succ_pos _, hd⟩
    · rw [if_neg hd] at h
      cases hr : firstIdxOf c rest with
      | none => rw [hr] at h; exact absurd h (by simp)
      | some k =>
        rw [hr] at h
        obtain rfl : k + 1 = i := by simpa using h
        obtain ⟨hk, hc⟩ := firstIdxOf_spec c rest k hr
        exact ⟨Nat.succ_lt_succ hk, hc⟩

theorem lastIdxOf_spec (c : Char) : ∀ (l : List Char) (j : Nat),
    lastIdxOf c l = some j → ∃ h : j < l.length, l.get ⟨j, h⟩ = c
  | [], j, h => absurd h (by simp [lastIdxOf])
  | d :: rest, j, h => by
    unfold lastIdxOf at h
    cases hr : lastIdxOf c rest with
    | some k =>
      rw [hr] at h
      obtain rfl : k + 1 = j := by simpa using h
      obtain ⟨hk, hc⟩ := lastIdxOf_spec c rest k hr
      exact ⟨Nat.succ_lt_succ hk, hc⟩
    | none =>
      rw [hr] at h
      by_cases hd : d = c
      · rw [if_pos hd] at h
        obtain rfl : (0 : Nat) = j := Option.some.inj h
        exact ⟨Nat.succ_pos _, hd⟩
      · rw [if_neg hd] at h
        exact absurd h (by simp)

/-- The span extracted by the pattern search is brace-delimited: it
starts with `{` and ends with `}`. -/
theorem extractBraced_shape (text : String) (sub : String)
    (h : extractBraced text = some sub) :
    sub.data.head? = some '{' ∧ sub.data.getLast? = some '}' := by
  unfold extractBraced at h
  cases hf : firstIdxOf '{' text.data with
  | none => rw [hf] at h; exact absurd h (by simp)
  | some i =>
    rw [hf] at h
    simp only [] at h
    cases hl : lastIdxOf '}' text.data with
    | none => rw [hl] at h; exact absurd h (by simp)
    | some j =>
      rw [hl] at h
      simp only [] at h
      by_cases hij : i < j
      · rw [if_pos hij] at h
        obtain rfl : String.mk ((text.data.drop i).take (j - i + 1)) = sub :=
          Option.some.inj h
        obtain ⟨hi, hci⟩ := firstIdxOf_spec '{' text.data i hf
        obtain ⟨hj, hcj⟩ := lastIdxOf_spec '}' text.data j hl
        constructor
        · rw [show (String.mk ((text.data.drop i).take (j - i + 1))).data
              = (text.data.drop i).take (j - i + 1) from rfl]
          rw [List.drop_eq_get_cons hi]
          rw [show j - i + 1 = (j - i) + 1 from rfl, List.take_succ_cons]
          rw [List.head?_cons, hci]
        · rw [show (String.mk ((text.data.drop i).take (j - i + 1))).data
              = (text.data.drop i).take (j - i + 1) from rfl]
          have hlen : ((text.data.drop i).take (j - i + 1)).length = j - i + 1 := by
            rw [List.length_take, List.length_drop]
            omega
          rw [List.getLast?_eq_get?, hlen]
          have h1 : ((text.data.drop i).take (j - i + 1)).get? (j - i + 1 - 1)
              = (text.data.drop i).get? (j - i) := by
            rw [show j - i + 1 - 1 = j - i from rfl]
            exact List.get?_take (Nat.lt_succ_self _)
          rw [h1, List.get?_drop]
          rw [show i + (j - i) = j by omega]
          rw [List.get?_eq_get hj, hcj]
      · rw [if_neg hij] at h
        exact absurd h (by simp)

/-- C4 counterexample: parsing can raise.  On the response `"{x}"`,
`json.loads` fails, the pattern search extracts `"{x}"` itself, and
the second `json.loads` — protected by no `try` — fails again: the
exception propagates (`none`) instead of the graceful fallback. -/
theorem llm_parse_raises_counterexample :
    miniJsonParse "{x}" = none ∧
    extractBraced "{x}" = some "{x}" ∧
    parse_llm_response miniJsonParse "{x}" = none :=
  ⟨rfl, rfl, rfl⟩

/-- C4 (amended): the Summarizer's parse chain never raises EXCEPT
when the response is not valid JSON and the brace-delimited span
extracted by pattern search itself fails to parse (that second parse
sits in no `try` block, so the exception aborts the day's batch).  In
every other case it returns a value: the parsed response, the parsed
extracted span, or — when no brace-delimited span exists at all — the
fallback object carrying the raw response text (truncated to 500
characters) in the overview field and empty arrays for the four
categories.  The extracted span, when present, is brace-delimited. -/
theorem llm_parse_fallback_policy (jp : String → Option JVal) (text : String) :
    (∀ j, jp text = some j → parse_llm_response jp text = some j) ∧
    (jp text = none → ∀ sub, extractBraced text = some sub →
      parse_llm_response jp text = jp sub) ∧
    (jp text = none → extractBraced text = none →
      parse_llm_response jp text = some (fallbackJson text)) ∧
    (∀ sub, extractBraced text = some sub →
      sub.data.head? = some '{' ∧ sub.data.getLast? = some '}') := by
  refine ⟨?_, ?_, ?_, fun sub hsub => extractBraced_shape text sub hsub⟩
  · intro j hj
    unfold parse_llm_response
    rw [hj]
  · intro h0 sub hsub
    unfold parse_llm_response
    rw [h0, hsub]
  · intro h0 hnone
    unfold parse_llm_response
    rw [h0, hnone]

theorem llm_parse_fallback_policy_witness :
    miniJsonParse "no json here" = none ∧
    extractBraced "no json here" = none ∧
    parse_llm_response miniJsonParse "no json here"
      = some (fallbackJson "no json here") :=
  ⟨rfl, rfl,
    (llm_parse_fallback_policy miniJsonParse "no json here").2.2.1 rfl rfl⟩

/-! ## Sync orchestrator transactions — sync_service.py

`sync_gmail` (lines 44-125) and `sync_whatsapp` (lines 402-462) run
one SQLAlchemy session each: writes go to the session, `commit` makes
them durable, and the `except: rollback; raise` arm discards them.
The sync functions below emit the trace of session operations they
perform together with the exception they raise, if any; the session
semantics (`runOps`) interprets a trace over a database state, so that
rollback behaviour is a property of the trace, not a by-construction
artifact of the model. -/

structure SyncStateRow where
  source : String
  last_sync_at : Option Nat := none
  page_cursor : Option String := none
  deriving DecidableEq

structure DB where
  store : Store
  syncStates : List SyncStateRow
  deriving DecidableEq

/-- Primitive session operations. -/
inductive SOp where
  | addItem (it : StoredComm)
  | addAtt (att : StoredAtt)
  | setLastSync (source : String) (ts : Nat)
  | setCursor (source : String) (cur : Option String)
  | commit
  | rollback
  deriving DecidableEq

def upsertLastSync (rows : List SyncStateRow) (src : String) (ts : Nat) :
    List SyncStateRow :=
  if rows.any (fun r => r.source = src) then
    rows.map (fun r => if r.source = src then { r with last_sync_at := some ts } else r)
  else rows ++ [{ source := src, last_sync_at := some ts }]

def upsertCursor (rows : List SyncStateRow) (src : String) (cur : Option String) :
    List SyncStateRow :=
  if rows.any (fun r => r.source = src) then
    rows.map (fun r => if r.source = src then { r with page_cursor := cur } else r)
  else rows ++ [{ source := src, page_cursor := cur }]

/-- Effect of one uncommitted write on the session's view. -/
def applyOp (db : DB) : SOp → DB
  | .addItem it =>
    { db with
      store := { db.store with
                 items := db.store.items ++ [it],
                 nextItemId := db.store.nextItemId + 1 } }
  | .addAtt att =>
    { db with
      store := { db.store with
                 atts := db.store.atts ++ [att],
                 nextAttId := db.store.nextAttId + 1 } }
  | .setLastSync src ts => { db with syncStates := upsertLastSync db.syncStates src ts }
  | .setCursor src cur => { db with syncStates := upsertCursor db.syncStates src cur }
  | .commit => db
  | .rollback => db

/-- Transactional interpretation of a trace: `commit` makes the view
durable, `rollback` resets the view to the last durable state, every
other operation only changes the view. -/
def runOps : DB → DB → List SOp → DB × DB
  | committed, view, [] => (committed, view)
  | committed, view, .commit :: rest => runOps view view rest
  | committed, _, .rollback :: rest => runOps committed committed rest
  | committed, view, op :: rest => runOps committed (applyOp view op) rest

/-- The durable database after a session runs a trace against `base`. -/
def committedAfter (base : DB) (tr : List SOp) : DB := (runOps base base tr).1

/-- A trace containing no `commit` leaves the durable state untouched,
whatever else it does. -/
theorem committedAfter_of_no_commit :
    ∀ (tr : List SOp) (committed view : DB), SOp.commit ∉ tr →
      (runOps committed view tr).1 = committed
  | [], _, _, _ => rfl
  | .commit :: rest, _, _, h => absurd (List.mem_cons_self _ _) h
  | .rollback :: rest, committed, view, h =>
    committedAfter_of_no_commit rest committed committed
      (fun hm => h (List.mem_cons_of_mem _ hm))
  | .addItem it :: rest, committed, view, h =>
    committedAfter_of_no_commit rest committed _
      (fun hm => h (List.mem_cons_of_mem _ hm))
  | .addAtt att :: rest, committed, view, h =>
    committedAfter_of_no_commit rest committed _
      (fun hm => h (List.mem_cons_of_mem _ hm))
  | .setLastSync src ts :: rest, committed, view, h =>
    committedAfter_of_no_commit rest committed _
      (fun hm => h (List.mem_cons_of_mem _ hm))
  | .setCursor src cur :: rest, committed, view, h =>
    committedAfter_of_no_commit rest committed _
      (fun hm => h (List.mem_cons_of_mem _ hm))

/-- The session writes of one Gmail message (sync_service.py lines
67-102): nothing for a duplicate, else the item plus its attachment
rows. -/
def gmailMsgOps (view : DB) (parsed : GmailParsed) : List SOp :=
  let source_id := "gmail_" ++ parsed.message_id
  if view.store.items.any (fun it => it.source_id = source_id) then []
  else
    SOp.addItem
      { id := view.store.nextItemId, timestamp := parsed.timestamp,
        title := parsed.subject, sender := parsed.sender,
        body_plain := some parsed.body_plain, body_html := some parsed.body_html,
        source := "gmail", source_id := source_id,
        gmail_thread_id := some parsed.thread_id,
        gmail_label_ids := some parsed.label_ids,
        gmail_snippet := some parsed.snippet }
      :: (gmailAtts parsed.attachments view.store.nextItemId view.store.nextAttId).map
          SOp.addAtt

def storeMsgs : DB → List GmailParsed → List SOp × DB
  | view, [] => ([], view)
  | view, m :: rest =>
    let ops := gmailMsgOps view m
    let view2 := ops.foldl applyOp view
    let (ops2, view3) := storeMsgs view2 rest
    (ops ++ ops2, view3)

/-- The paging loop of `sync_gmail` (lines 60-107): up to `remaining`
(initially 10) pages; a fetch error aborts; an empty page or an absent
next token ends the loop.  Returns the emitted writes and either the
error or the final view and next-run cursor. -/
def sync_gmail_loop (fetch : Nat → Except String (List GmailParsed × Option String)) :
    Nat → Nat → Option String → DB → List SOp × Except String (DB × Option String)
  | 0, _, tok, view => ([], .ok (view, tok))
  | rem + 1, k, _, view =>
    match fetch k with
    | .error e => ([], .error e)
    | .ok (msgs, next) =>
      if msgs.isEmpty then ([], .ok (view, next))
      else
        let (ops, view2) := storeMsgs view msgs
        if next.isNone then (ops, .ok (view2, next))
        else
          let (ops2, res) := sync_gmail_loop fetch rem (k + 1) next view2
          (ops ++ ops2, res)

/-- `SyncService.sync_gmail` (lines 44-125) as a trace: on success the
sync state update (`last_sync_at := now`, `page_cursor := final
token`) and the commit are appended; on an exception the rollback is
emitted and the error is re-raised (returned). -/
def sync_gmail (db : DB) (fetch : Nat → Except String (List GmailParsed × Option String))
    (now : Nat) : List SOp × Option String :=
  let state := db.syncStates.find? (fun s => s.source = "gmail")
  let tok0 := state.bind (fun s => s.page_cursor)
  match sync_gmail_loop fetch 10 0 tok0 db with
  | (ops, .error e) => (ops ++ [.rollback], some e)
  | (ops, .ok (_, finalTok)) =>
    (ops ++ [.setLastSync "gmail" now, .setCursor "gmail" finalTok, .commit], none)

/-- A WhatsApp message as returned by the scraping collaborator. -/
structure WAMsg where
  source_id : String
  timestamp : Nat
  title : String
  sender : String
  body_plain : String
  deriving DecidableEq

def waMsgOps (view : DB) (msg : WAMsg) : List SOp :=
  if view.store.items.any (fun it => it.source_id = msg.source_id) then []
  else
    [SOp.addItem
      { id := view.store.nextItemId, timestamp := msg.timestamp,
        title := msg.title, sender := msg.sender,
        body_plain := some msg.body_plain,
        source := "whatsapp", source_id := msg.source_id }]

def waStoreMsgs : DB → List WAMsg → List SOp × DB
  | view, [] => ([], view)
  | view, m :: rest =>
    let ops := waMsgOps view m
    let view2 := ops.foldl applyOp view
    let (ops2, view3) := waStoreMsgs view2 rest
    (ops ++ ops2, view3)

def wa_loop (scrape : String → Except String (List WAMsg)) :
    DB → List String → List SOp × Except String DB
  | view, [] => ([], .ok view)
  | view, g :: rest =>
    match scrape g with
    | .error e => ([], .error e)
    | .ok msgs =>
      let (ops, view2) := waStoreMsgs view msgs
      let (ops2, res) := wa_loop scrape view2 rest
      (ops ++ ops2, res)

/-- `SyncService.sync_whatsapp` (lines 402-462): early return when no
groups are configured; otherwise scrape each group in turn, then set
`last_sync_at` and commit; a scrape error rolls back and re-raises. -/
def sync_whatsapp (db : DB) (groups : List String)
    (scrape : String → Except String (List WAMsg)) (now : Nat) :
    List SOp × Option String :=
  if groups.isEmpty then ([], none)
  else
    match wa_loop scrape db groups with
    | (ops, .error e) => (ops ++ [.rollback], some e)
    | (ops, .ok _) => (ops ++ [.setLastSync "whatsapp" now, .commit], none)

/-! ### Claim C5 -/

theorem gmailMsgOps_no_commit (view : DB) (m : GmailParsed) :
    SOp.commit ∉ gmailMsgOps view m := by
  unfold gmailMsgOps
  by_cases h : view.store.items.any
      (fun it => it.source_id = "gmail_" ++ m.message_id)
  · simp [h]
  · simp only [h]
    intro hmem
    rcases List.mem_cons.mp hmem with h1 | h1
    · exact absurd h1 (by simp)
    · obtain ⟨att, -, h2⟩ := List.mem_map.mp h1
      exact absurd h2 (by simp)

theorem storeMsgs_no_commit : ∀ (view : DB) (msgs : List GmailParsed),
    SOp.commit ∉ (storeMsgs view msgs).1
  | _, [] => List.not_mem_nil _
  | view, m :: rest => by
    unfold storeMsgs
    rcases hsm : storeMsgs ((gmailMsgOps view m).foldl applyOp view) rest
      with ⟨ops2, view3⟩
    simp only [hsm]
    intro hmem
    rcases List.mem_append.mp hmem with h | h
    · exact gmailMsgOps_no_commit view m h
    · have := storeMsgs_no_commit ((gmailMsgOps view m).foldl applyOp view) rest
      rw [hsm] at this
      exact this h

theorem waMsgOps_no_commit (view : DB) (m : WAMsg) :
    SOp.commit ∉ waMsgOps view m := by
  unfold waMsgOps
  by_cases h : view.store.items.any (fun it => it.source_id = m.source_id)
  · simp [h]
  · simp [h]

theorem waStoreMsgs_no_commit : ∀ (view : DB) (msgs : List WAMsg),
    SOp.commit ∉ (waStoreMsgs view msgs).1
  | _, [] => List.not_mem_nil _
  | view, m :: rest => by
    unfold waStoreMsgs
    rcases hsm : waStoreMsgs ((waMsgOps view m).foldl applyOp view) rest
      with ⟨ops2, view3⟩
    simp only [hsm]
    intro hmem
    rcases List.mem_append.mp hmem with h | h
    · exact waMsgOps_no_commit view m h
    · have := waStoreMsgs_no_commit ((waMsgOps view m).foldl applyOp view) rest
      rw [hsm] at this
      exact this h

/-- A reachable fetch failure aborts the paging loop with that error,
and the loop emits no commit. -/
theorem sync_gmail_loop_error
    (fetch : Nat → Except String (List GmailParsed × Option String)) :
    ∀ (d rem k : Nat) (tok : Option String) (view : DB) (e : String),
      d < rem →
      fetch (k + d) = .error e →
      (∀ j, j < d → ∃ msgs next, fetch (k + j) = .ok (msgs, next) ∧
        msgs ≠ [] ∧ next ≠ none) →
      (sync_gmail_loop fetch rem k tok view).2 = .error e ∧
      SOp.commit ∉ (sync_gmail_loop fetch rem k tok view).1
  | d, 0, k, tok, view, e, hd, _, _ => absurd hd (Nat.not_lt_zero d)
  | 0, rem + 1, k, tok, view, e, hd, herr, _ => by
    have hfk : fetch k = .error e := by simpa using herr
    rw [sync_gmail_loop, hfk]
    exact ⟨rfl, List.not_mem_nil _⟩
  | d + 1, rem + 1, k, tok, view, e, hd, herr, hprev => by
    obtain ⟨msgs, next, hfk, hmne, hnn⟩ := hprev 0 (Nat.succ_pos d)
    rw [Nat.add_zero] at hfk
    have hemp : msgs.isEmpty = false := by
      cases msgs with
      | nil => exact absurd rfl hmne
      | cons a l => rfl
    have hnone : next.isNone = false := by
      cases next with
      | none => exact absurd rfl hnn
      | some t => rfl
    rcases hsm : storeMsgs view msgs with ⟨ops, view2⟩
    rcases hrec : sync_gmail_loop fetch rem (k + 1) next view2 with ⟨ops2, res⟩
    have hih := sync_gmail_loop_error fetch d rem (k + 1) next view2 e
      (Nat.lt_of_succ_lt_succ hd)
      (by rw [show k + 1 + d = k + (d + 1) by omega]; exact herr)
      (fun j hj => by
        obtain ⟨m2, n2, h1, h2, h3⟩ := hprev (j + 1) (Nat.succ_lt_succ hj)
        exact ⟨m2, n2, by rw [show k + 1 + j = k + (j + 1) by omega]; exact h1, h2, h3⟩)
    rw [hrec] at hih
    have hstep : sync_gmail_loop fetch (rem + 1) k tok view = (ops ++ ops2, res) := by
      rw [sync_gmail_loop, hfk]
      simp [hemp, hnone, hsm, hrec]
    rw [hstep]
    refine ⟨hih.1, ?_⟩
    intro hmem
    rcases List.mem_append.mp hmem with h | h
    · have := storeMsgs_no_commit view msgs
      rw [hsm] at this
      exact this h
    · exact hih.2 h

theorem wa_loop_error (scrape : String → Except String (List WAMsg)) (e : String) :
    ∀ (gs1 : List String) (g : String) (gs2 : List String) (view : DB),
      (∀ g2 ∈ gs1, ∃ msgs, scrape g2 = .ok msgs) →
      scrape g = .error e →
      (wa_loop scrape view (gs1 ++ g :: gs2)).2 = .error e ∧
      SOp.commit ∉ (wa_loop scrape view (gs1 ++ g :: gs2)).1
  | [], g, gs2, view, _, herr => by
    rw [List.nil_append, wa_loop, herr]
    exact ⟨rfl, List.not_mem_nil _⟩
  | g1 :: gs1, g, gs2, view, hok, herr => by
    obtain ⟨msgs, hg1⟩ := hok g1 (List.mem_cons_self g1 gs1)
    rcases hsm : waStoreMsgs view msgs with ⟨ops, view2⟩
    rcases hrec : wa_loop scrape view2 (gs1 ++ g :: gs2) with ⟨ops2, res⟩
    have hih := wa_loop_error scrape e gs1 g gs2 view2
      (fun g2 hg2 => hok g2 (List.mem_cons_of_mem g1 hg2)) herr
    rw [hrec] at hih
    have hstep : wa_loop scrape view ((g1 :: gs1) ++ g :: gs2) = (ops ++ ops2, res) := by
      rw [List.cons_append, wa_loop, hg1]
      simp [hsm, hrec]
    rw [hstep]
    refine ⟨hih.1, ?_⟩
    intro hmem
    rcases List.mem_append.mp hmem with h | h
    · have := waStoreMsgs_no_commit view msgs
      rw [hsm] at this
      exact this h
    · exact hih.2 h

/-- C5: if an unrecoverable error occurs mid-way through a source's
sync loop (a failing Gmail page fetch after any number of successful
pages; a failing WhatsApp group scrape after any number of successful
groups), the committed database is exactly what it was before the run
— all partial Communication Item and Attachment writes are rolled
back and the source's SyncState (`last_sync_at` and `page_cursor`) is
untouched — and the error is raised to the caller, not swallowed. -/
theorem sync_error_rolls_back_and_raises :
    (∀ (db : DB) (fetch : Nat → Except String (List GmailParsed × Option String))
       (now d : Nat) (e : String),
      d < 10 → fetch d = .error e →
      (∀ j, j < d → ∃ msgs next, fetch j = .ok (msgs, next) ∧
        msgs ≠ [] ∧ next ≠ none) →
      (sync_gmail db fetch now).2 = some e ∧
      committedAfter db (sync_gmail db fetch now).1 = db) ∧
    (∀ (db : DB) (gs1 gs2 : List String) (g : String)
       (scrape : String → Except String (List WAMsg)) (now : Nat) (e : String),
      (∀ g2 ∈ gs1, ∃ msgs, scrape g2 = .ok msgs) →
      scrape g = .error e →
      (sync_whatsapp db (gs1 ++ g :: gs2) scrape now).2 = some e ∧
      committedAfter db (sync_whatsapp db (gs1 ++ g :: gs2) scrape now).1 = db) := by
  constructor
  · intro db fetch now d e hd herr hprev
    have hloop := sync_gmail_loop_error fetch d 10 0
      ((db.syncStates.find? (fun s => s.source = "gmail")).bind (fun s => s.page_cursor))
      db e hd (by simpa using herr) (fun j hj => by simpa using hprev j hj)
    rcases hl : sync_gmail_loop fetch 10 0
        ((db.syncStates.find? (fun s => s.source = "gmail")).bind (fun s => s.page_cursor))
        db with ⟨ops, res⟩
    rw [hl] at hloop
    obtain rfl : res = .error e := hloop.1
    have hdef : sync_gmail db fetch now = (ops ++ [.rollback], some e) := by
      have hz : sync_gmail db fetch now
          = (match sync_gmail_loop fetch 10 0
              ((db.syncStates.find? (fun s => s.source = "gmail")).bind
                (fun s => s.page_cursor)) db with
            | (ops1, .error e1) => (ops1 ++ [SOp.rollback], some e1)
            | (ops1, .ok (_, finalTok)) =>
              (ops1 ++ [SOp.setLastSync "gmail" now, SOp.setCursor "gmail" finalTok,
                SOp.commit], none)) := rfl
      rw [hz, hl]
    rw [hdef]
    refine ⟨rfl, ?_⟩
    unfold committedAfter
    refine committedAfter_of_no_commit _ db db ?_
    intro hmem
    rcases List.mem_append.mp hmem with h | h
    · exact hloop.2 h
    · rcases List.mem_cons.mp h with h1 | h1
      · exact absurd h1 (by simp)
      · exact List.not_mem_nil _ h1
  · intro db gs1 gs2 g scrape now e hok herr
    have hloop := wa_loop_error scrape e gs1 g gs2 db hok herr
    rcases hl : wa_loop scrape db (gs1 ++ g :: gs2) with ⟨ops, res⟩
    rw [hl] at hloop
    obtain rfl : res = .error e := hloop.1
    have hne : (gs1 ++ g :: gs2).isEmpty = false := by
      cases gs1 <;> rfl
    have hdef : sync_whatsapp db (gs1 ++ g :: gs2) scrape now
        = (ops ++ [.rollback], some e) := by
      unfold sync_whatsapp
      rw [hne, hl]
      rfl
    rw [hdef]
    refine ⟨rfl, ?_⟩
    unfold committedAfter
    refine committedAfter_of_no_commit _ db db ?_
    intro hmem
    rcases List.mem_append.mp hmem with h | h
    · exact hloop.2 h
    · rcases List.mem_cons.mp h with h1 | h1
      · exact absurd h1 (by simp)
      · exact List.not_mem_nil _ h1

theorem sync_error_rolls_back_and_raises_witness :
    ((sync_gmail ⟨emptyStore, []⟩ (fun _ => .error "timeout") 7).2 = some "timeout" ∧
      committedAfter ⟨emptyStore, []⟩
        (sync_gmail ⟨emptyStore, []⟩ (fun _ => .error "timeout") 7).1
        = ⟨emptyStore, []⟩) ∧
    ((sync_whatsapp ⟨emptyStore, []⟩ ["class parents"] (fun _ => .error "dom") 7).2
        = some "dom" ∧
      committedAfter ⟨emptyStore, []⟩
        (sync_whatsapp ⟨emptyStore, []⟩ ["class parents"] (fun _ => .error "dom") 7).1
        = ⟨emptyStore, []⟩) :=
  ⟨sync_error_rolls_back_and_raises.1 ⟨emptyStore, []⟩ (fun _ => .error "timeout") 7 0
      "timeout" (by decide) rfl (fun j hj => absurd hj (Nat.not_lt_zero j)),
    sync_error_rolls_back_and_raises.2 ⟨emptyStore, []⟩ [] [] "class parents"
      (fun _ => .error "dom") 7 "dom"
      (fun g2 hg2 => absurd hg2 (List.not_mem_nil g2)) rfl⟩

/-! ## Attachment/PDF post-processor — sync_service.py lines 245-335

The per-attachment body of `_download_and_extract_pdfs`: the HTTP
response is its `content-length` header (absent headers read as `0`,
line 283) and the sizes of its streamed chunks; the PDF text
extraction collaborator is the per-page `extract_text()` results. -/

/-- `PDF_MAX_SIZE = 10 * 1024 * 1024` (sync_service.py line 35). -/
def PDF_MAX_SIZE : Nat := 10 * 1024 * 1024

structure PdfResp where
  contentLength : Option Nat
  chunks : List Nat
  deriving DecidableEq

/-- The streaming loop (lines 289-296): accumulate chunk sizes; a
chunk that pushes the running total past the ceiling is the last one
read, and the loop breaks (`completed = false` skips the `for`-`else`
branch).  Returns (bytes read, completed). -/
def readChunks : List Nat → Nat → Nat × Bool
  | [], _ => (0, true)
  | c :: rest, total =>
    if total + c > PDF_MAX_SIZE then (c, false)
    else
      let (n, cmp) := readChunks rest (total + c)
      (c + n, cmp)

/-- Handling of one pending PDF attachment (lines 274-324): skip
attachments with no remote url; skip before reading any body byte when
the declared `content-length` exceeds the ceiling; abandon mid-stream
when the running total exceeds the ceiling; otherwise write the file
and record `is_downloaded`, `local_path` and the concatenation of the
non-empty extracted pages (NULL when nothing was extracted).  Returns
the updated attachment row and the number of body bytes read. -/
def download_and_extract_pdf (att : StoredAtt) (resp : PdfResp)
    (pages : List (Option String)) (localPath : String) : StoredAtt × Nat :=
  if att.remote_url = "" then (att, 0)
  else if resp.contentLength.getD 0 > PDF_MAX_SIZE then (att, 0)
  else
    let (bytesRead, completed) := readChunks resp.chunks 0
    if completed = false then (att, bytesRead)
    else
      let extracted := (pages.filterMap id).filter (fun s => s ≠ "")
      let text := String.intercalate (String.mk [Char.ofNat 10, Char.ofNat 10]) extracted
      ({ att with
           local_path := some localPath,
           is_downloaded := true,
           extracted_text := if text = "" then none else some text }, bytesRead)

theorem readChunks_completed : ∀ (chunks : List Nat) (total : Nat),
    total ≤ PDF_MAX_SIZE →
    ((readChunks chunks total).2 = true ↔ total + chunks.sum ≤ PDF_MAX_SIZE)
  | [], total, htot => by simpa [readChunks] using htot
  | c :: rest, total, htot => by
    unfold readChunks
    by_cases hc : total + c > PDF_MAX_SIZE
    · rw [if_pos hc]
      simp only [List.sum_cons]
      constructor
      · intro h
        exact absurd h (by simp)
      · intro h
        exact absurd (le_trans (Nat.add_le_add_left (Nat.le_add_right c rest.sum) total)
          h) (Nat.not_le_of_lt hc)
    · rw [if_neg hc]
      rcases hrc : readChunks rest (total + c) with ⟨n, cmp⟩
      have hih := readChunks_completed rest (total + c) (Nat.le_of_not_lt hc)
      rw [hrc] at hih
      simp only [List.sum_cons, hrc]
      rw [show total + (c + rest.sum) = total + c + rest.sum by omega]
      exact hih

/-- C9: during PDF post-processing, a pending attachment whose
response declares a `content-length` above the ceiling is never
started (zero body bytes are read and the row stays untouched), and a
download whose streamed running total exceeds the ceiling is abandoned
mid-stream with the row untouched; in both cases `is_downloaded`
remains `false` and `local_path`/`extracted_text` remain unset, so the
attachment is selected again on a future pass. -/
theorem pdf_size_guard (att : StoredAtt) (resp : PdfResp)
    (pages : List (Option String)) (lp : String)
    (hpend : att.is_downloaded = false) (hlp : att.local_path = none)
    (het : att.extracted_text = none) :
    (∀ L, resp.contentLength = some L → PDF_MAX_SIZE < L →
      download_and_extract_pdf att resp pages lp = (att, 0) ∧
      (download_and_extract_pdf att resp pages lp).1.is_downloaded = false) ∧
    (PDF_MAX_SIZE < resp.chunks.sum →
      (download_and_extract_pdf att resp pages lp).1 = att ∧
      (download_and_extract_pdf att resp pages lp).1.is_downloaded = false ∧
      (download_and_extract_pdf att resp pages lp).1.local_path = none ∧
      (download_and_extract_pdf att resp pages lp).1.extracted_text = none) := by
  constructor
  · intro L hL hgt
    have hres : download_and_extract_pdf att resp pages lp = (att, 0) := by
      unfold download_and_extract_pdf
      by_cases hurl : att.remote_url = ""
      · rw [if_pos hurl]
      · rw [if_neg hurl, if_pos (by rw [hL]; exact hgt)]
    exact ⟨hres, by rw [hres]; exact hpend⟩
  · intro hsum
    have hres : (download_and_extract_pdf att resp pages lp).1 = att := by
      unfold download_and_extract_pdf
      by_cases hurl : att.remote_url = ""
      · rw [if_pos hurl]
      · rw [if_neg hurl]
        by_cases hcl : resp.contentLength.getD 0 > PDF_MAX_SIZE
        · rw [if_pos hcl]
        · rw [if_neg hcl]
          rcases hrc : readChunks resp.chunks 0 with ⟨n, cmp⟩
          have hcmp : cmp = false := by
            have h := readChunks_completed resp.chunks 0 (Nat.zero_le _)
            rw [hrc] at h
            cases hc : cmp
            · rfl
            · have := h.mp hc
              rw [Nat.zero_add] at this
              exact absurd this (Nat.not_le_of_lt hsum)
          subst hcmp
          simp
    exact ⟨hres, by rw [hres]; exact hpend, by rw [hres]; exact hlp,
      by rw [hres]; exact het⟩

theorem pdf_size_guard_witness :
    ((⟨1, 1, "report.pdf", "application/pdf", "https://x/y.pdf", none, false, none⟩ :
        StoredAtt).is_downloaded = false) ∧
    ((∀ L, (some (PDF_MAX_SIZE + 1) : Option Nat) = some L → PDF_MAX_SIZE < L →
      download_and_extract_pdf
          ⟨1, 1, "report.pdf", "application/pdf", "https://x/y.pdf", none, false, none⟩
          ⟨some (PDF_MAX_SIZE + 1), [4096, PDF_MAX_SIZE]⟩ [some "text"] "/tmp/a.pdf"
        = (⟨1, 1, "report.pdf", "application/pdf", "https://x/y.pdf", none, false, none⟩, 0) ∧
      (download_and_extract_pdf
          ⟨1, 1, "report.pdf", "application/pdf", "https://x/y.pdf", none, false, none⟩
          ⟨some (PDF_MAX_SIZE + 1), [4096, PDF_MAX_SIZE]⟩ [some "text"] "/tmp/a.pdf").1.is_downloaded
        = false) ∧
    (PDF_MAX_SIZE < ([4096, PDF_MAX_SIZE] : List Nat).sum →
      (download_and_extract_pdf
          ⟨1, 1, "report.pdf", "application/pdf", "https://x/y.pdf", none, false, none⟩
          ⟨some (PDF_MAX_SIZE + 1), [4096, PDF_MAX_SIZE]⟩ [some "text"] "/tmp/a.pdf").1
        = ⟨1, 1, "report.pdf", "application/pdf", "https://x/y.pdf", none, false, none⟩ ∧
      (download_and_extract_pdf
          ⟨1, 1, "report.pdf", "application/pdf", "https://x/y.pdf", none, false, none⟩
          ⟨some (PDF_MAX_SIZE + 1), [4096, PDF_MAX_SIZE]⟩ [some "text"] "/tmp/a.pdf").1.is_downloaded
        = false ∧
      (download_and_extract_pdf
          ⟨1, 1, "report.pdf", "application/pdf", "https://x/y.pdf", none, false, none⟩
          ⟨some (PDF_MAX_SIZE + 1), [4096, PDF_MAX_SIZE]⟩ [some "text"] "/tmp/a.pdf").1.local_path
        = none ∧
      (download_and_extract_pdf
          ⟨1, 1, "report.pdf", "application/pdf", "https://x/y.pdf", none, false, none⟩
          ⟨some (PDF_MAX_SIZE + 1), [4096, PDF_MAX_SIZE]⟩ [some "text"] "/tmp/a.pdf").1.extracted_text
        = none)) :=
  ⟨rfl,
    pdf_size_guard
      ⟨1, 1, "report.pdf", "application/pdf", "https://x/y.pdf", none, false, none⟩
      ⟨some (PDF_MAX_SIZE + 1), [4096, PDF_MAX_SIZE]⟩ [some "text"] "/tmp/a.pdf"
      rfl rfl rfl⟩

end SchoolComms
